import Mathlib

/-!
Shallow embedding of the deterministic game core of `world-card-ai`
(src/game/state.py, src/cards/deck.py, src/cards/resolver.py,
src/story/dag.py, src/death/loop.py, src/game/engine.py), together with
theorems settling the specification claims about it.

Modelling conventions:
* Python `int` is `Int`; `%` on a positive modulus matches `Int.emod`.
* Python `dict[str, T]` is an association list `List (String × T)` with
  dict-assignment semantics (`setV`): replace in place if the key exists,
  append otherwise.
* Python `set[str]` (player tags) is a duplicate-free `List String` in a
  fixed iteration order; `add` appends when absent, `discard` filters.
* Dynamic `eval` of condition expression strings is abstracted as a
  function `Ctx → Option Bool`; `none` models an evaluation that raises,
  which the source catches and treats as `False`.
-/

-- ════════════════════════════════════════════════════════════════════
-- Generic helpers: clamping and association-list (dict) operations
-- ════════════════════════════════════════════════════════════════════

/-- Clamp an integer into [0, 100]: `max(0, min(100, x))` from
`ActionExecutor._update_stat`. -/
def clamp (x : Int) : Int := max 0 (min 100 x)

/-- Dict lookup: value stored at `k`, if any. -/
def lookupV (l : List (String × Int)) (k : String) : Option Int :=
  (l.find? (fun p => p.1 == k)).map (fun p => p.2)

/-- Dict assignment `d[k] = v`: replace the existing entry in place,
append when the key is absent (CPython insertion-order semantics). -/
def setV (l : List (String × Int)) (k : String) (v : Int) : List (String × Int) :=
  match l with
  | [] => [(k, v)]
  | p :: rest => if p.1 == k then (k, v) :: rest else p :: setV rest k v

/-- Character-level list prefix test (executable model of Python
`str.startswith`). -/
def listIsPre : List Char → List Char → Bool
  | [], _ => true
  | _ :: _, [] => false
  | c :: cs, d :: ds => c == d && listIsPre cs ds

/-- Python `s.startswith(pre)` over the characters of the strings. -/
def strStartsWith (s pre : String) : Bool := listIsPre pre.data s.data

/-- Membership test `k in d` for a string-keyed dict. -/
def hasKey (l : List (String × Int)) (k : String) : Bool :=
  l.any (fun p => p.1 == k)

-- ════════════════════════════════════════════════════════════════════
-- Calendar constants and the GlobalBlackboard (src/game/state.py)
-- ════════════════════════════════════════════════════════════════════

def DAYS_PER_WEEK : Int := 7
def WEEKS_PER_SEASON : Int := 4
def DAYS_PER_SEASON : Int := DAYS_PER_WEEK * WEEKS_PER_SEASON
def SEASONS_PER_YEAR : Int := 4
def DAYS_PER_YEAR : Int := DAYS_PER_SEASON * SEASONS_PER_YEAR

/-- Evaluation context handed to dynamically evaluated condition
expressions (`MacroDAG.check_condition`, `GameEngine.check_events`). -/
structure Ctx where
  stats : List (String × Int)
  tags : List String
  events : List String
  season : Int
  day : Int
  year : Int
  elapsed_days : Int

/-- Abstract condition expression: evaluation either yields a truth
value or fails (models `eval` raising on a malformed expression). -/
def Cond : Type := Ctx → Option Bool

/-- One parameter set for `update_stat` (src/cards/resolver.py).  The
source takes a raw dict; the branch on `"stat_id" in params and
("delta" in params or "change" in params)` is reflected in the two
constructors.  A delta that `int()` cannot coerce is `none`. -/
inductive UpdateStatParams where
  | explicitPair (stat_id : String) (delta : Option Int)
  | mapping (entries : List (String × Option Int))

/-- Keys of an `update_stat` parameter set are unique (always true in
the source, where params is a Python dict). -/
def UpdateStatParams.keysUnique : UpdateStatParams → Prop
  | .explicitPair _ _ => True
  | .mapping entries => (entries.map (fun p => p.1)).Nodup

/-- Parameters of `add_event`, post `params.get` defaulting structure:
`none` models an absent key, resolved by the handler exactly where the
source calls `params.get(key, default)`. -/
structure AddEventParams where
  etype : String
  event_id : String
  ename : Option String
  description : String
  icon : String
  phases : List (String × String)
  target : Int
  progress_label : String
  deadline : List Int
  end_condition : Cond

/-- A declarative function call dispatched by `ActionExecutor`.  The
source dispatches on `call.name` through a registry; each constructor
is one registered handler, and `unknown` covers every unregistered
name (silently ignored).  Parameters carry the values each handler
reads from the raw params dict. -/
inductive FCall where
  | update_stat (p : UpdateStatParams)
  | add_tag (tag_id : String)
  | remove_tag (tag_id : String)
  | add_event (p : AddEventParams)
  | remove_event (event_id : String)
  | advance_event (event_id : String)
  | update_event_progress (event_id : String) (delta : Int)
  | change_event_deadline (event_id : String) (deadline : List Int)
  | enable_npc (npc_id : String)
  | disable_npc (npc_id : String)
  | advance_time (days : Int)
  | unknown (name : String)

/-- Season record (runtime): hook call lists fired at calendar
boundaries. -/
structure Season where
  name : String
  description : String
  icon : String
  on_season_end_calls : List FCall
  on_week_end_calls : List FCall
  on_day_end_calls : List FCall

/-- NPC roster entry. -/
structure NPC where
  id : String
  name : String
  role : String
  description : String
  enabled : Bool
  npc_appearance_count : Int

structure StatDefinition where
  id : String
  name : String
  description : String
  icon : String

-- ════════════════════════════════════════════════════════════════════
-- Cards (src/cards/models.py)
-- ════════════════════════════════════════════════════════════════════

structure CardBase where
  id : String
  title : String
  description : String
  character : String
  source : String
  priority : Int

mutual
/-- Card union: `ChoiceCard` (left/right swipe, optional tree cards)
or `InfoCard` (dismiss-only, optional chained next cards). -/
inductive Card where
  | choice (base : CardBase) (left right : Choice)
      (tree_left tree_right : List Card)
  | info (base : CardBase) (next_cards : List Card)

/-- One swipe option of a ChoiceCard. -/
inductive Choice where
  | mk (text : String) (calls : List FCall)
end

def Choice.calls : Choice → List FCall
  | .mk _ cs => cs

def Card.base : Card → CardBase
  | .choice b _ _ _ _ => b
  | .info b _ => b

def Card.priority (c : Card) : Int := c.base.priority

def Card.source (c : Card) : String := c.base.source

def Card.isInfo : Card → Bool
  | .choice _ _ _ _ _ => false
  | .info _ _ => true

/-- Overwrite priority and source, as `GameEngine.resolve_card` does to
tree cards before inserting them. -/
def Card.retag (c : Card) (pr : Int) (src : String) : Card :=
  match c with
  | .choice b l r tl tr =>
      .choice { b with priority := pr, source := src } l r tl tr
  | .info b nc => .info { b with priority := pr, source := src } nc

-- ════════════════════════════════════════════════════════════════════
-- GlobalBlackboard (src/game/state.py)
-- ════════════════════════════════════════════════════════════════════

structure GlobalBlackboard where
  world_name : String
  era : String
  stats : List (String × Int)
  stat_defs : List StatDefinition
  tags : List String
  day : Int
  season_index : Int
  year : Int
  start_day : Int
  start_season_index : Int
  start_year : Int
  seasons : List Season
  turn : Int
  npcs : List NPC
  pending_plot_node : Option String
  karma : List String
  life_number : Int
  previous_life_tags : List String
  is_first_day_after_death : Bool
  welcome_card : Option Card
  reborn_card : Option Card
  season_start_card : Option Card
  pending_death_cards : List (String × Card)

namespace GlobalBlackboard

/-- Boundary flags returned by `advance_day`. -/
structure Crossed where
  week_end : Bool
  season_end : Bool

/-- Advance the calendar by one day (`GlobalBlackboard.advance_day`):
increment `day` and `turn`; a turn count reaching `DAYS_PER_WEEK`
reports a week end and resets `turn`; a day count past
`DAYS_PER_SEASON` reports a season end, resets `day` to 1, advances
`season_index` modulo `SEASONS_PER_YEAR` and bumps `year` on wrap. -/
def advance_day (s : GlobalBlackboard) : GlobalBlackboard × Crossed :=
  let day := s.day + 1
  let turn := s.turn + 1
  let weekEnd := turn ≥ DAYS_PER_WEEK
  let turn := if weekEnd then 0 else turn
  let seasonEnd := day > DAYS_PER_SEASON
  if seasonEnd then
    let day := 1
    let season_index := (s.season_index + 1) % SEASONS_PER_YEAR
    let year := if season_index == 0 then s.year + 1 else s.year
    ({ s with day := day, turn := turn, season_index := season_index,
              year := year },
     ⟨weekEnd, true⟩)
  else
    ({ s with day := day, turn := turn }, ⟨weekEnd, false⟩)

/-- Skip the rest of the season (`advance_to_next_season`): day 1 of
the following season, wrapping over `len(seasons)` (4 when the season
list is empty) and bumping the year on wrap. -/
def advance_to_next_season (s : GlobalBlackboard) : GlobalBlackboard :=
  let num_seasons : Int := if s.seasons.isEmpty then 4 else s.seasons.length
  let season_index := (s.season_index + 1) % num_seasons
  let year := if season_index == 0 then s.year + 1 else s.year
  { s with day := 1, season_index := season_index, year := year }

/-- Total days elapsed since game start (`elapsed_days` property). -/
def elapsed_days (s : GlobalBlackboard) : Int :=
  (s.year * DAYS_PER_YEAR + s.season_index * DAYS_PER_SEASON + s.day) -
    (s.start_year * DAYS_PER_YEAR + s.start_season_index * DAYS_PER_SEASON +
      s.start_day)

/-- The active season, when configured (`current_season`). -/
def current_season (s : GlobalBlackboard) : Option Season :=
  if !s.seasons.isEmpty && 0 ≤ s.season_index &&
      s.season_index < (s.seasons.length : Int)
  then s.seasons.get? s.season_index.toNat
  else none

end GlobalBlackboard

/-- Context built by `MacroDAG.check_condition` (the `events` entry is
an empty set there; the engine fills it only in `check_events`). -/
def mkCtx (s : GlobalBlackboard) : Ctx :=
  { stats := s.stats, tags := s.tags, events := [],
    season := s.season_index, day := s.day, year := s.year,
    elapsed_days := s.elapsed_days }

-- ════════════════════════════════════════════════════════════════════
-- Events (src/game/events.py)
-- ════════════════════════════════════════════════════════════════════

structure EventBase where
  id : String
  name : String
  description : String
  icon : String
  on_action_end_calls : List FCall
  on_phase_end_calls : List FCall

/-- The four event variants.  A phase is a (name, description) pair.
No variant defines an `on_day_end_calls` attribute, so the engine's
day-end hook loop (guarded by `hasattr(event, "on_day_end_calls")`)
never executes any calls. -/
inductive Event where
  | phase (base : EventBase) (phases : List (String × String))
      (current_phase : Int)
  | progress (base : EventBase) (target current : Int)
      (progress_label : String)
  | timed (base : EventBase) (deadline : List Int)
  | condition (base : EventBase) (end_condition : Cond)

namespace Event

def base : Event → EventBase
  | .phase b _ _ => b
  | .progress b _ _ _ => b
  | .timed b _ => b
  | .condition b _ => b

def id (e : Event) : String := e.base.id

/-- `PhaseEvent.is_finished`: phase index has run past the list. -/
def phaseFinished (phases : List (String × String)) (current : Int) : Bool :=
  current ≥ (phases.length : Int)

/-- `PhaseEvent.advance_phase`: no-op when already finished, else step
the phase index. -/
def advancePhase : Event → Event
  | .phase b ph cur =>
      if phaseFinished ph cur then .phase b ph cur
      else .phase b ph (cur + 1)
  | e => e

/-- `ProgressEvent.update_progress`: add the delta to the counter. -/
def updateProgress (delta : Int) : Event → Event
  | .progress b t cur lbl => .progress b t (cur + delta) lbl
  | e => e

/-- `TimedEvent.set_deadline`. -/
def setDeadline (dl : List Int) : Event → Event
  | .timed b _ => .timed b dl
  | e => e

def isPhase : Event → Bool
  | .phase _ _ _ => true
  | _ => false

def isProgress : Event → Bool
  | .progress _ _ _ _ => true
  | _ => false

def isTimed : Event → Bool
  | .timed _ _ => true
  | _ => false

/-- `PhaseEvent.is_finished` / `ProgressEvent.is_finished`; the timed
and condition variants always self-report unfinished. -/
def isFinished : Event → Bool
  | .phase _ ph cur => phaseFinished ph cur
  | .progress _ t cur _ => cur ≥ t
  | .timed _ _ => false
  | .condition _ _ => false

/-- `TimedEvent.is_expired`: lexicographic `(year, season, day)`
comparison of `[d, m, y]` triples.  Both the engine-supplied current
date and a well-formed deadline have exactly three entries; any other
shape would raise in the source and cannot occur on the engine path. -/
def isExpired (deadline current_date : List Int) : Bool :=
  match current_date, deadline with
  | [cd, cm, cy], [dd, dm, dy] =>
      (cy > dy) || (cy == dy && (cm > dm || (cm == dm && cd ≥ dd)))
  | _, _ => false

end Event

/-- Update the first list element satisfying `p` (the source's
`for … : if …: mutate; break` idiom). -/
def updateFirst {α : Type} (p : α → Bool) (f : α → α) : List α → List α
  | [] => []
  | x :: rest => if p x then f x :: rest else x :: updateFirst p f rest

-- ════════════════════════════════════════════════════════════════════
-- WeightedDeque (src/cards/deck.py)
-- ════════════════════════════════════════════════════════════════════

structure WeightedDeque where
  cards : List Card
  capacity : Nat
  cards_consumed : Nat

/-- Remove the first (lowest index) card with `source == "common"`
from the list, the single step of `_evict_if_needed`; `none` when no
common card exists. -/
def popFirstCommon : List Card → Option (Card × List Card)
  | [] => none
  | c :: rest =>
      if c.source == "common" then some (c, rest)
      else match popFirstCommon rest with
        | some (d, l) => some (d, c :: l)
        | none => none

theorem popFirstCommon_length : ∀ {l : List Card} {c : Card} {l' : List Card},
    popFirstCommon l = some (c, l') → l'.length + 1 = l.length := by
  intro l
  induction l with
  | nil => intro c l' h; simp [popFirstCommon] at h
  | cons x rest ih =>
    intro c l' h
    simp only [popFirstCommon] at h
    by_cases hx : x.source == "common"
    · rw [if_pos hx] at h
      simp only [Option.some.injEq, Prod.mk.injEq] at h
      obtain ⟨rfl, rfl⟩ := h
      simp
    · rw [if_neg hx] at h
      cases hrec : popFirstCommon rest with
      | none => rw [hrec] at h; exact absurd h (by simp)
      | some pr =>
        obtain ⟨d, m⟩ := pr
        rw [hrec] at h
        simp only [Option.some.injEq, Prod.mk.injEq] at h
        obtain ⟨rfl, rfl⟩ := h
        have hm := ih hrec
        simp only [List.length_cons]
        omega

/-- The `while` loop of `_evict_if_needed` with explicit fuel: while
over capacity, evict the first common card; stop when at/under
capacity or when no common card remains.  Each iteration removes one
card, so fuel `l.length` always suffices (`evictIfNeeded_eq`). -/
def evictLoop (cap : Nat) : Nat → List Card → List Card
  | 0, l => l
  | fuel + 1, l =>
      if l.length > cap then
        match popFirstCommon l with
        | some (_, l') => evictLoop cap fuel l'
        | none => l
      else l

/-- `_evict_if_needed`. -/
def evictIfNeeded (cap : Nat) (l : List Card) : List Card :=
  evictLoop cap l.length l

theorem evictLoop_congr (cap : Nat) : ∀ (fuel : Nat) (l : List Card),
    l.length ≤ fuel → evictLoop cap fuel l = evictIfNeeded cap l := by
  intro fuel
  induction fuel with
  | zero =>
    intro l h
    have : l = [] := by
      cases l with
      | nil => rfl
      | cons x rest => simp at h
    rw [this]
    rfl
  | succ fuel ih =>
    intro l h
    show evictLoop cap (fuel + 1) l = evictLoop cap l.length l
    cases l with
    | nil => simp [evictLoop]
    | cons x rest =>
      simp only [evictLoop, List.length_cons]
      by_cases hc : rest.length + 1 > cap
      · rw [if_pos hc, if_pos hc]
        cases hp : popFirstCommon (x :: rest) with
        | none => rfl
        | some pr =>
          obtain ⟨c, l'⟩ := pr
          have hl' : l'.length = rest.length := by
            have := popFirstCommon_length hp
            simp only [List.length_cons] at this
            omega
          have hlen : (x :: rest).length ≤ fuel + 1 := h
          simp only [List.length_cons] at hlen
          show evictLoop cap fuel l' = evictLoop cap rest.length l'
          rw [ih l' (by omega)]
          unfold evictIfNeeded
          rw [hl']
      · rw [if_neg hc, if_neg hc]

/-- The defining one-step unfolding of `_evict_if_needed`. -/
theorem evictIfNeeded_eq (cap : Nat) (l : List Card) :
    evictIfNeeded cap l =
      if l.length > cap then
        match popFirstCommon l with
        | some (_, l') => evictIfNeeded cap l'
        | none => l
      else l := by
  cases l with
  | nil => simp [evictIfNeeded, evictLoop]
  | cons x rest =>
    show evictLoop cap (rest.length + 1) (x :: rest) = _
    simp only [evictLoop, List.length_cons]
    by_cases hc : rest.length + 1 > cap
    · rw [if_pos hc, if_pos hc]
      cases hp : popFirstCommon (x :: rest) with
      | none => rfl
      | some pr =>
        obtain ⟨c, l'⟩ := pr
        have hl' : l'.length = rest.length := by
          have := popFirstCommon_length hp
          simp only [List.length_cons] at this
          omega
        show evictLoop cap rest.length l' = evictIfNeeded cap l'
        rw [evictLoop_congr cap rest.length l' (by omega)]
    · rw [if_neg hc, if_neg hc]

/-- Insertion at `bisect_left` over the priority list: for the sorted
lists the deque maintains, `bisect_left` returns the length of the
maximal prefix of strictly smaller priorities, so the new card lands
before every existing card of equal or greater priority. -/
def insortByPriority (l : List Card) (c : Card) : List Card :=
  l.takeWhile (fun d => d.priority < c.priority) ++
    c :: l.dropWhile (fun d => d.priority < c.priority)

namespace WeightedDeque

/-- `WeightedDeque.insert`: place in priority order, then evict. -/
def insert (d : WeightedDeque) (c : Card) : WeightedDeque :=
  { d with cards := evictIfNeeded d.capacity (insortByPriority d.cards c) }

/-- `WeightedDeque.bulk_insert`: insert every card in priority order,
then run a single eviction pass; returns the pre-eviction count. -/
def bulkInsert (d : WeightedDeque) (cs : List Card) : WeightedDeque × Nat :=
  ({ d with cards :=
      evictIfNeeded d.capacity (cs.foldl insortByPriority d.cards) },
   cs.length)

/-- `WeightedDeque.draw`: pop the tail of the ascending list, i.e. the
highest-priority card; `none` on an empty deque. -/
def draw (d : WeightedDeque) : Option Card × WeightedDeque :=
  match d.cards.getLast? with
  | none => (none, d)
  | some c =>
      (some c, { d with cards := d.cards.dropLast,
                        cards_consumed := d.cards_consumed + 1 })

def clear (d : WeightedDeque) : WeightedDeque :=
  { d with cards := [], cards_consumed := 0 }

def isEmpty (d : WeightedDeque) : Bool := d.cards.isEmpty

end WeightedDeque

-- ════════════════════════════════════════════════════════════════════
-- MacroDAG (src/story/dag.py)
-- ════════════════════════════════════════════════════════════════════

structure PlotNode where
  id : String
  plot_description : String
  condition : Cond
  calls : List FCall
  is_ending : Bool
  ending_text : Option String
  is_fired : Bool

/-- The plot graph: `nodes` is the id-keyed node dict (`add_node` keys
every node by `node.id`), `edges` the directed edge list (`add_edge`
inserts an edge only when both endpoints are known nodes). -/
structure MacroDAG where
  nodes : List (String × PlotNode)
  edges : List (String × String)

namespace MacroDAG

def lookupNode (d : MacroDAG) (k : String) : Option PlotNode :=
  (d.nodes.find? (fun p => p.1 == k)).map (fun p => p.2)

/-- Predecessors of a node in the edge relation
(`graph.predecessors`). -/
def preds (d : MacroDAG) (nid : String) : List String :=
  (d.edges.filter (fun e => e.2 == nid)).map (fun e => e.1)

/-- `check_condition`: evaluate the node's expression over the state
context; an evaluation failure is caught, logged and treated as
`False`. -/
def check_condition (n : PlotNode) (s : GlobalBlackboard) : Bool :=
  (n.condition (mkCtx s)).getD false

/-- `get_activatable_nodes`: not-yet-fired nodes whose predecessors
present in the node set are all fired (a node with no predecessors
always passes the gate) and whose condition holds. -/
def get_activatable_nodes (d : MacroDAG) (s : GlobalBlackboard) :
    List PlotNode :=
  (d.nodes.filter (fun e =>
      !e.2.is_fired &&
      !(!(preds d e.1).isEmpty &&
          !((preds d e.1).all (fun p =>
              match d.lookupNode p with
              | some m => m.is_fired
              | none => true))) &&
      check_condition e.2 s)).map (fun e => e.2)

/-- `fire_node`: unknown id returns nothing; a known node is marked
fired (again, if need be) and returned. -/
def fire_node (d : MacroDAG) (nid : String) : MacroDAG × Option PlotNode :=
  match d.lookupNode nid with
  | none => (d, none)
  | some n =>
      let n' := { n with is_fired := true }
      ({ d with nodes := d.nodes.map (fun e =>
          if e.1 == nid then (e.1, n') else e) },
       some n')

/-- `check_ending`: first fired ending node, if any. -/
def check_ending (d : MacroDAG) : Option PlotNode :=
  (d.nodes.find? (fun e => e.2.is_ending && e.2.is_fired)).map (fun e => e.2)

/-- `partial_reset(keep_fired)`: skip ids in a non-empty keep set
(the guard is `if keep_fired and node_id in keep_fired`), then un-fire
every non-ending node. -/
def dagReset (d : MacroDAG) (keep : List String) : MacroDAG :=
  { d with nodes := d.nodes.map (fun e =>
      if !keep.isEmpty && keep.contains e.1 then e
      else if !e.2.is_ending then (e.1, { e.2 with is_fired := false })
      else e) }

end MacroDAG

-- ════════════════════════════════════════════════════════════════════
-- DeathLoop (src/death/loop.py)
-- ════════════════════════════════════════════════════════════════════

structure DeathInfo where
  cause_stat : String
  cause_value : Int
  turn : Int
  life_number : Int
  tags_at_death : List String
  stats_at_death : List (String × Int)

/-- `DeathLoop.check_death`: scan the stats in iteration order and
report the first one at or past a boundary (0 depleted, 100
overloaded). -/
def check_death (s : GlobalBlackboard) : Option DeathInfo :=
  s.stats.findSome? (fun p =>
    if p.2 ≤ 0 then
      some { cause_stat := p.1, cause_value := 0, turn := s.turn,
             life_number := s.life_number, tags_at_death := s.tags,
             stats_at_death := s.stats }
    else if p.2 ≥ 100 then
      some { cause_stat := p.1, cause_value := 100, turn := s.turn,
             life_number := s.life_number, tags_at_death := s.tags,
             stats_at_death := s.stats }
    else none)

/-- `DeathLoop.resurrect`: compute karma (non-`_temp`-prefixed tags,
capped at 10), append it to the karma history, bump the life number,
keep exactly the karma tags, reset every stat to 50 and every NPC
appearance counter to 0 — and additionally skip the calendar to day 1
of the next season (`SEASONS_PER_YEAR` wrap) with `turn = 0`.
Returns the new state and the karma list. -/
def death_resurrect (s : GlobalBlackboard) :
    GlobalBlackboard × List String :=
  let important_tags := s.tags.filter (fun t => !strStartsWith t "_temp")
  let karma := important_tags.take 10
  let season_index := (s.season_index + 1) % SEASONS_PER_YEAR
  let year := if season_index == 0 then s.year + 1 else s.year
  ({ s with
      previous_life_tags := karma,
      karma := s.karma ++ karma,
      life_number := s.life_number + 1,
      tags := karma,
      stats := s.stats.map (fun p => (p.1, 50)),
      npcs := s.npcs.map (fun n => { n with npc_appearance_count := 0 }),
      season_index := season_index,
      year := year,
      day := 1,
      turn := 0 },
   karma)

-- ════════════════════════════════════════════════════════════════════
-- ActionExecutor (src/cards/resolver.py)
-- ════════════════════════════════════════════════════════════════════

/-- Result record of `ActionExecutor.resolve_card`. -/
structure ExecuteResult where
  stat_changes : List (String × Int)
  new_stats : List (String × Int)
  tags_added : List String
  tags_removed : List String
  tree_cards : List Card
  direction : String
  is_info : Bool

/-- Apply one coercible delta entry of `_update_stat` to (stats,
changes): unknown stat ids leave both untouched; otherwise the stat is
set to the clamped value and the net applied change is recorded. -/
def applyStatDelta (acc : List (String × Int) × List (String × Int))
    (stat_id : String) (delta : Int) :
    List (String × Int) × List (String × Int) :=
  match lookupV acc.1 stat_id with
  | none => acc
  | some old =>
      let new := clamp (old + delta)
      (setV acc.1 stat_id new, setV acc.2 stat_id (new - old))

/-- `ActionExecutor._update_stat` on a stats dict: the explicit
`(stat_id, delta|change)` convention or the flat mapping convention;
per-entry `int()` coercion failures are skipped. Returns the updated
stats and the changes dict. -/
def updateStatFn (stats : List (String × Int)) (p : UpdateStatParams) :
    List (String × Int) × List (String × Int) :=
  match p with
  | .explicitPair _ none => (stats, [])
  | .explicitPair stat_id (some delta) => applyStatDelta (stats, []) stat_id delta
  | .mapping entries =>
      entries.foldl (fun acc e =>
        match e.2 with
        | none => acc
        | some delta => applyStatDelta acc e.1 delta) (stats, [])

/-- Python `str.title()` composed with `replace("_", " ")`, used for
the default event name. -/
def titleName (s : String) : String :=
  " ".intercalate (((s.replace "_" " ").splitOn " ").map String.capitalize)

/-- `ActionExecutor._add_event`: build the typed variant (with the
source's `params.get` defaults); an empty event id or an unrecognized
type appends nothing. -/
def buildEvent (p : AddEventParams) : Option Event :=
  if p.event_id == "" then none
  else
    let base : EventBase :=
      { id := p.event_id, name := p.ename.getD (titleName p.event_id),
        description := p.description, icon := p.icon,
        on_action_end_calls := [], on_phase_end_calls := [] }
    if p.etype == "phase" then some (.phase base p.phases 0)
    else if p.etype == "progress" then
      some (.progress base p.target 0 p.progress_label)
    else if p.etype == "timed" then some (.timed base p.deadline)
    else if p.etype == "condition" then
      some (.condition base p.end_condition)
    else none

/-- State threaded through the executor: the blackboard plus the
engine's active-events list (mutated in place by the handlers). -/
structure ExecState where
  state : GlobalBlackboard
  events : List Event

/-- Python `set.add` on the tag list. -/
def addTagToSet (tags : List String) (t : String) : List String :=
  if tags.contains t then tags else tags ++ [t]

/-- Iterate `advance_day` (used by `_advance_time`), discarding the
boundary flags as the source does. -/
def advanceDays (s : GlobalBlackboard) : Nat → GlobalBlackboard
  | 0 => s
  | n + 1 => advanceDays (s.advance_day).1 n

/-- Dispatch one function call to its handler
(`ActionExecutor.execute` body).  Returns the new state and, for
`update_stat`, the changes dict merged into the running result. -/
def execCall (es : ExecState) (call : FCall) :
    ExecState × List (String × Int) :=
  match call with
  | .update_stat p =>
      let (stats', changes) := updateStatFn es.state.stats p
      ({ es with state := { es.state with stats := stats' } }, changes)
  | .add_tag tag_id =>
      (if tag_id == "" then es
       else { es with state :=
          { es.state with tags := addTagToSet es.state.tags tag_id } }, [])
  | .remove_tag tag_id =>
      ({ es with state :=
          { es.state with tags := es.state.tags.filter (fun t => t != tag_id) } },
       [])
  | .add_event p =>
      (match buildEvent p with
       | some ev => { es with events := es.events ++ [ev] }
       | none => es, [])
  | .remove_event event_id =>
      ({ es with events := es.events.filter (fun e => e.id != event_id) }, [])
  | .advance_event event_id =>
      let evs := updateFirst (fun e => e.id == event_id && e.isPhase)
        Event.advancePhase es.events
      ({ es with events := evs }, [])
  | .update_event_progress event_id delta =>
      let evs := updateFirst (fun e => e.id == event_id && e.isProgress)
        (Event.updateProgress delta) es.events
      ({ es with events := evs }, [])
  | .change_event_deadline event_id deadline =>
      let evs := updateFirst (fun e => e.id == event_id && e.isTimed)
        (Event.setDeadline deadline) es.events
      ({ es with events := evs }, [])
  | .enable_npc npc_id =>
      let ns := updateFirst (fun n => n.id == npc_id)
        (fun n => { n with enabled := true }) es.state.npcs
      ({ es with state := { es.state with npcs := ns } }, [])
  | .disable_npc npc_id =>
      let ns := updateFirst (fun n => n.id == npc_id)
        (fun n => { n with enabled := false }) es.state.npcs
      ({ es with state := { es.state with npcs := ns } }, [])
  | .advance_time days =>
      (if days > 0 then
        { es with state := advanceDays es.state days.toNat }
       else es, [])
  | .unknown _ => (es, [])

/-- One iteration of the `ActionExecutor.execute` loop: run the call,
merge an `update_stat` result into the accumulated stat-changes
dict. -/
def execStep (acc : ExecState × List (String × Int)) (call : FCall) :
    ExecState × List (String × Int) :=
  let r := execCall acc.1 call
  (r.1, r.2.foldl (fun m e => setV m e.1 e.2) acc.2)

/-- `ActionExecutor.execute`: run the calls in order. -/
def execute (es : ExecState) (calls : List FCall) :
    ExecState × List (String × Int) :=
  calls.foldl execStep (es, [])

/-- `ActionExecutor.resolve_card`: an InfoCard executes nothing and
returns its `next_cards` as tree cards; a ChoiceCard executes the
chosen side's calls, bumps the matching NPC's appearance counter and
returns the chosen side's tree cards.  Day advancement is not done
here. -/
def executorResolveCard (es : ExecState) (card : Card)
    (direction : String) : ExecState × ExecuteResult :=
  match card with
  | .info _ next_cards =>
      (es, { stat_changes := [], new_stats := [], tags_added := [],
             tags_removed := [], tree_cards := next_cards,
             direction := direction, is_info := true })
  | .choice base left right tree_left tree_right =>
      let choice := if direction == "left" then left else right
      let (es', stat_changes) := execute es choice.calls
      let ns := updateFirst (fun n => n.id == base.character)
        (fun n => { n with
            npc_appearance_count := n.npc_appearance_count + 1 })
        es'.state.npcs
      let es'' : ExecState :=
        { es' with state := { es'.state with npcs := ns } }
      let tree_cards := if direction == "left" then tree_left else tree_right
      (es'', { stat_changes := stat_changes,
               new_stats := es''.state.stats, tags_added := [],
               tags_removed := [], tree_cards := tree_cards,
               direction := direction, is_info := false })

-- ════════════════════════════════════════════════════════════════════
-- GameEngine (src/game/engine.py)
-- ════════════════════════════════════════════════════════════════════

def PRIORITY_TREE : Int := 4

/-- Generic dict lookup for string-keyed association lists. -/
def lookupA {α : Type} (l : List (String × α)) (k : String) : Option α :=
  (l.find? (fun p => p.1 == k)).map (fun p => p.2)

/-- Removal of a key (`dict.pop` on a present key, the source keeps
keys unique). -/
def eraseKey {α : Type} (l : List (String × α)) (k : String) :
    List (String × α) :=
  l.filter (fun p => p.1 != k)

/-- A queued Writer job (`fire_pending_plot` enqueues plot jobs with
this context). -/
structure CardGenJob where
  job_type : String
  node_id : String
  plot_description : String
  is_ending : Bool
  ending_text : Option String

/-- The engine aggregate: blackboard, week deck, immediate structural
queue, plot DAG, active events, Writer job queue, and the
awaiting-resurrection flag. -/
structure Engine where
  state : GlobalBlackboard
  deque : WeightedDeque
  immediate_deque : List Card
  dag : MacroDAG
  events : List Event
  job_queue : List CardGenJob
  awaiting_resurrection : Bool

namespace Engine

/-- `_check_plot_conditions`: store the first activatable node id (if
any) as the pending plot node. -/
def checkPlotConditions (e : Engine) : Engine :=
  match e.dag.get_activatable_nodes e.state with
  | [] => e
  | n :: _ =>
      { e with state := { e.state with pending_plot_node := some n.id } }

/-- `fire_pending_plot`: at week end, fire the pending node, run its
calls, enqueue a Writer job for its card, and clear the pending id. -/
def firePendingPlot (e : Engine) : Engine :=
  match e.state.pending_plot_node with
  | none => e
  | some nid =>
      let fired := e.dag.fire_node nid
      match fired.2 with
      | none =>
          { e with dag := fired.1,
                   state := { e.state with pending_plot_node := none } }
      | some node =>
          let ex := execute ⟨e.state, e.events⟩ node.calls
          let job : CardGenJob :=
            { job_type := "plot", node_id := node.id,
              plot_description := node.plot_description,
              is_ending := node.is_ending, ending_text := node.ending_text }
          { e with dag := fired.1,
                   state := { ex.1.state with pending_plot_node := none },
                   events := ex.1.events,
                   job_queue := e.job_queue ++ [job] }

/-- Termination check of one active event inside `check_events`:
phase and progress events self-report, timed events compare the
`[day, season, year]` triple, condition events evaluate their
expression over a context whose `events` entry holds every active
event id (an evaluation failure keeps the event active). -/
def eventFinished (s : GlobalBlackboard) (allIds : List String)
    (ev : Event) : Bool :=
  match ev with
  | .phase _ _ _ => ev.isFinished
  | .progress _ _ _ _ => ev.isFinished
  | .timed _ dl => Event.isExpired dl [s.day, s.season_index, s.year]
  | .condition _ c => (c { mkCtx s with events := allIds }).getD false

/-- `check_events`: collect finished event ids over the whole list,
then remove every event carrying one of those ids in a single pass. -/
def checkEvents (e : Engine) : Engine :=
  let allIds := e.events.map (fun ev => ev.id)
  let finished_ids :=
    (e.events.filter (eventFinished e.state allIds)).map (fun ev => ev.id)
  let kept := e.events.filter (fun ev => !finished_ids.contains ev.id)
  { e with events := kept }

/-- `_on_week_end`: run the current season's week-end hook calls,
fire the pending plot node, sweep finished events. -/
def onWeekEnd (e : Engine) : Engine :=
  let e1 :=
    match e.state.current_season with
    | some se =>
        if !se.on_week_end_calls.isEmpty then
          let ex := execute ⟨e.state, e.events⟩ se.on_week_end_calls
          { e with state := ex.1.state, events := ex.1.events }
        else e
    | none => e
  checkEvents (firePendingPlot e1)

/-- `_on_season_end`: run the just-ended (previous) season's
season-end hook calls; `season_index` was already advanced by
`advance_day`. -/
def onSeasonEnd (e : Engine) : Engine :=
  if e.state.seasons.isEmpty then e
  else
    let prev_idx := (e.state.season_index - 1) % (e.state.seasons.length : Int)
    match e.state.seasons.get? prev_idx.toNat with
    | some se =>
        if !se.on_season_end_calls.isEmpty then
          let ex := execute ⟨e.state, e.events⟩ se.on_season_end_calls
          { e with state := ex.1.state, events := ex.1.events }
        else e
    | none => e

/-- `GameEngine.resolve_card`: run the executor; when the resolution
yields tree cards, retag them as priority-4 tree cards, insert them
into the deck and return without touching the calendar; an InfoCard
also returns without touching the calendar; otherwise advance one day
(the source's day-end hook loop over events is vacuous — no event type
defines `on_day_end_calls`), re-check plot conditions, and fire the
week-end and season-end paths for whichever boundaries were
crossed. -/
def resolveCard (e : Engine) (card : Card) (direction : String) :
    Engine × ExecuteResult :=
  let ex := executorResolveCard ⟨e.state, e.events⟩ card direction
  let result := ex.2
  let e1 := { e with state := ex.1.state, events := ex.1.events }
  if !result.tree_cards.isEmpty then
    let e2 := result.tree_cards.foldl (fun acc tc =>
      { acc with deque := acc.deque.insert (tc.retag PRIORITY_TREE "tree") })
      e1
    (e2, result)
  else if card.isInfo then (e1, result)
  else
    let adv := e1.state.advance_day
    let e2 := { e1 with state := adv.1 }
    let e3 := checkPlotConditions e2
    let e4 := if adv.2.week_end then onWeekEnd e3 else e3
    let e5 := if adv.2.season_end then onSeasonEnd e4 else e4
    (e5, result)

/-- `GameEngine.handle_death`: pop the pre-generated death card keyed
by `death_<stat>_<min|max>` (synthesizing a fallback InfoCard when
none exists — `fresh_id` stands for the `uuid4().hex[:8]` suffix),
append it to the immediate queue and raise the awaiting-resurrection
flag. -/
def deathBoundary (death : DeathInfo) : String :=
  if death.cause_value ≤ 0 then "min" else "max"

/-- The pre-generated death-card key `death_<stat>_<min|max>`. -/
def deathCardKey (death : DeathInfo) : String :=
  "death_" ++ death.cause_stat ++ "_" ++ deathBoundary death

/-- The synthesized fallback death card (the `uuid4().hex[:8]` suffix
is the `fresh_id` argument). -/
def fallbackDeathCard (e : Engine) (death : DeathInfo)
    (fresh_id : String) : Card :=
  let stat_name :=
    ((e.state.stat_defs.find? (fun sd => sd.id == death.cause_stat)).map
      (fun sd => sd.name)).getD death.cause_stat
  let desc :=
    if deathBoundary death == "min" then
      "Your " ++ stat_name ++
        " has fallen to nothing. The world fades to black..."
    else
      "Your " ++ stat_name ++
        " has spiraled beyond control. Everything collapses..."
  .info
    { id := "death_" ++ fresh_id, title := "☠ Death",
      description := desc, character := "narrator",
      source := "info", priority := 5 } []

def handleDeath (e : Engine) (death : DeathInfo) (fresh_id : String) :
    Engine :=
  match lookupA e.state.pending_death_cards (deathCardKey death) with
  | some death_card =>
      { e with
          state := { e.state with
            pending_death_cards :=
              eraseKey e.state.pending_death_cards (deathCardKey death) },
          immediate_deque := e.immediate_deque ++ [death_card],
          awaiting_resurrection := true }
  | none =>
      { e with
          immediate_deque :=
            e.immediate_deque ++ [fallbackDeathCard e death fresh_id],
          awaiting_resurrection := true }

/-- `GameEngine.resurrect`: the death-loop reset, then clear events,
deck and pending death cards, and partially reset the DAG keeping the
fired endings. -/
def resurrect (e : Engine) : Engine × List String :=
  let dr := death_resurrect e.state
  let endings_fired :=
    (e.dag.nodes.filter (fun p => p.2.is_ending && p.2.is_fired)).map
      (fun p => p.1)
  ({ e with
      state := { dr.1 with pending_death_cards := [] },
      events := [],
      deque := e.deque.clear,
      dag := e.dag.dagReset endings_fired },
   dr.2)

/-- `GameEngine.complete_resurrection`: clear the awaiting flag, run
the resurrection reset, then jump to day 1 of the next season and set
the first-day-after-death flag. -/
def completeResurrection (e : Engine) : Engine :=
  let e1 := { e with awaiting_resurrection := false }
  let e2 := (e1.resurrect).1
  let s' := e2.state.advance_to_next_season
  { e2 with state := { s' with is_first_day_after_death := true } }

end Engine

-- ════════════════════════════════════════════════════════════════════
-- Test fixtures (concrete inputs used by witnesses and counterexamples)
-- ════════════════════════════════════════════════════════════════════

/-- Four hook-free seasons, as built from a standard world schema. -/
def fixtureSeasons : List Season :=
  [⟨"Spring", "", "", [], [], []⟩, ⟨"Summer", "", "", [], [], []⟩,
   ⟨"Autumn", "", "", [], [], []⟩, ⟨"Winter", "", "", [], [], []⟩]

/-- A freshly initialised blackboard with two stats at 50. -/
def fixtureGB : GlobalBlackboard :=
  { world_name := "w", era := "e",
    stats := [("treasury", 50), ("military", 50)],
    stat_defs := [], tags := [], day := 1, season_index := 0, year := 1,
    start_day := 1, start_season_index := 0, start_year := 1,
    seasons := fixtureSeasons, turn := 0, npcs := [],
    pending_plot_node := none, karma := [], life_number := 1,
    previous_life_tags := [], is_first_day_after_death := false,
    welcome_card := none, reborn_card := none, season_start_card := none,
    pending_death_cards := [] }

/-- A fresh engine over `fixtureGB` with an empty 7-card deck. -/
def fixtureEngine : Engine :=
  { state := fixtureGB, deque := ⟨[], 7, 0⟩, immediate_deque := [],
    dag := ⟨[], []⟩, events := [], job_queue := [],
    awaiting_resurrection := false }

/-- An info card fixture with a given id, priority and source. -/
def fixtureInfo (i : String) (p : Int) (src : String) : Card :=
  .info { id := i, title := "", description := "", character := "narrator",
          source := src, priority := p } []

-- ════════════════════════════════════════════════════════════════════
-- Calendar lemmas and claim C4
-- ════════════════════════════════════════════════════════════════════

theorem advance_day_turn (s : GlobalBlackboard) :
    (s.advance_day).1.turn =
      if s.turn + 1 ≥ DAYS_PER_WEEK then 0 else s.turn + 1 := by
  simp only [GlobalBlackboard.advance_day]
  by_cases h : s.day + 1 > DAYS_PER_SEASON <;> simp [h]

theorem advance_day_week (s : GlobalBlackboard) :
    (s.advance_day).2.week_end = decide (s.turn + 1 ≥ DAYS_PER_WEEK) := by
  simp only [GlobalBlackboard.advance_day]
  by_cases h : s.day + 1 > DAYS_PER_SEASON <;> simp [h]

theorem advance_day_season (s : GlobalBlackboard) :
    (s.advance_day).2.season_end = decide (s.day + 1 > DAYS_PER_SEASON) := by
  simp only [GlobalBlackboard.advance_day]
  by_cases h : s.day + 1 > DAYS_PER_SEASON <;> simp [h]

theorem advance_day_day (s : GlobalBlackboard) :
    (s.advance_day).1.day =
      if s.day + 1 > DAYS_PER_SEASON then 1 else s.day + 1 := by
  simp only [GlobalBlackboard.advance_day]
  by_cases h : s.day + 1 > DAYS_PER_SEASON <;> simp [h]

theorem advance_day_season_index (s : GlobalBlackboard) :
    (s.advance_day).1.season_index =
      if s.day + 1 > DAYS_PER_SEASON then
        (s.season_index + 1) % SEASONS_PER_YEAR
      else s.season_index := by
  simp only [GlobalBlackboard.advance_day]
  by_cases h : s.day + 1 > DAYS_PER_SEASON <;> simp [h]

theorem advance_day_year (s : GlobalBlackboard) :
    (s.advance_day).1.year =
      if s.day + 1 > DAYS_PER_SEASON ∧
          (s.season_index + 1) % SEASONS_PER_YEAR = 0
      then s.year + 1 else s.year := by
  simp only [GlobalBlackboard.advance_day]
  by_cases h : s.day + 1 > DAYS_PER_SEASON
  · by_cases h2 : (s.season_index + 1) % SEASONS_PER_YEAR = 0 <;>
      simp [h, h2]
  · simp [h]

/-- `advance_day` iterated `n` times, collecting each call's boundary
flags in order. -/
def advanceDayTrace (s : GlobalBlackboard) :
    Nat → GlobalBlackboard × List GlobalBlackboard.Crossed
  | 0 => (s, [])
  | n + 1 =>
      let r := s.advance_day
      let rest := advanceDayTrace r.1 n
      (rest.1, r.2 :: rest.2)

/-- C4.  `advance_day` increments `day` and `turn`; a turn count
reaching 7 reports `week_end` and resets `turn` to 0 (so 7 calls from
`turn = 0` report `week_end` exactly on the 7th call); a day count
past 28 reports `season_end`, resets `day` to 1, advances
`season_index` modulo 4 and increments `year` exactly on the 3→0 wrap;
the two flags are determined independently, and one call can report
both (e.g. from `turn = 6`, `day = 28`). -/
theorem C4_advance_day_boundaries (s : GlobalBlackboard) :
    ((s.advance_day).2.week_end = true ↔ s.turn + 1 ≥ DAYS_PER_WEEK) ∧
    ((s.advance_day).2.season_end = true ↔ s.day + 1 > DAYS_PER_SEASON) ∧
    ((s.advance_day).1.turn =
      if s.turn + 1 ≥ DAYS_PER_WEEK then 0 else s.turn + 1) ∧
    ((s.advance_day).1.day =
      if s.day + 1 > DAYS_PER_SEASON then 1 else s.day + 1) ∧
    ((s.advance_day).1.season_index =
      if s.day + 1 > DAYS_PER_SEASON then
        (s.season_index + 1) % SEASONS_PER_YEAR
      else s.season_index) ∧
    ((s.advance_day).1.year =
      if s.day + 1 > DAYS_PER_SEASON ∧
          (s.season_index + 1) % SEASONS_PER_YEAR = 0
      then s.year + 1 else s.year) ∧
    ((({ s with turn := 6, day := 28 }).advance_day).2.week_end = true ∧
      (({ s with turn := 6, day := 28 }).advance_day).2.season_end = true) ∧
    (∀ t : GlobalBlackboard, t.turn = 0 →
      ((advanceDayTrace t 7).2.map (fun c => c.week_end) =
        [false, false, false, false, false, false, true] ∧
       (advanceDayTrace t 7).1.turn = 0)) := by
  refine ⟨?_, ?_, advance_day_turn s, advance_day_day s,
          advance_day_season_index s, advance_day_year s, ?_, ?_⟩
  · rw [advance_day_week]; simp
  · rw [advance_day_season]; simp
  · constructor
    · rw [advance_day_week]; simp [DAYS_PER_WEEK]
    · rw [advance_day_season]; simp [DAYS_PER_SEASON, DAYS_PER_WEEK,
        WEEKS_PER_SEASON]
  · intro t ht
    have h1 : (t.advance_day).1.turn = 1 := by
      rw [advance_day_turn, ht]; norm_num [DAYS_PER_WEEK]
    have h2 : ((t.advance_day).1.advance_day).1.turn = 2 := by
      rw [advance_day_turn, h1]; norm_num [DAYS_PER_WEEK]
    have h3 : (((t.advance_day).1.advance_day).1.advance_day).1.turn = 3 := by
      rw [advance_day_turn, h2]; norm_num [DAYS_PER_WEEK]
    have h4 : ((((t.advance_day).1.advance_day).1.advance_day).1.advance_day).1.turn = 4 := by
      rw [advance_day_turn, h3]; norm_num [DAYS_PER_WEEK]
    have h5 : (((((t.advance_day).1.advance_day).1.advance_day).1.advance_day).1.advance_day).1.turn = 5 := by
      rw [advance_day_turn, h4]; norm_num [DAYS_PER_WEEK]
    have h6 : ((((((t.advance_day).1.advance_day).1.advance_day).1.advance_day).1.advance_day).1.advance_day).1.turn = 6 := by
      rw [advance_day_turn, h5]; norm_num [DAYS_PER_WEEK]
    have h7 : (((((((t.advance_day).1.advance_day).1.advance_day).1.advance_day).1.advance_day).1.advance_day).1.advance_day).1.turn = 0 := by
      rw [advance_day_turn, h6]; norm_num [DAYS_PER_WEEK]
    constructor
    · simp only [advanceDayTrace, List.map_cons, List.map_nil,
        advance_day_week, ht, h1, h2, h3, h4, h5, h6]
      norm_num [DAYS_PER_WEEK]
    · simp only [advanceDayTrace]
      exact h7

/-- Witness for C4: the 7-call week property evaluated on the fixture
blackboard (which starts at `turn = 0`). -/
theorem C4_advance_day_boundaries_witness :
    (advanceDayTrace fixtureGB 7).2.map (fun c => c.week_end) =
      [false, false, false, false, false, false, true] ∧
    (advanceDayTrace fixtureGB 7).1.turn = 0 :=
  (C4_advance_day_boundaries fixtureGB).2.2.2.2.2.2.2 fixtureGB rfl

-- ════════════════════════════════════════════════════════════════════
-- Dict lemmas for the update_stat development
-- ════════════════════════════════════════════════════════════════════

theorem lookupV_cons (p : String × Int) (rest : List (String × Int))
    (k : String) :
    lookupV (p :: rest) k = if p.1 == k then some p.2 else lookupV rest k := by
  by_cases h : p.1 == k <;> simp [lookupV, List.find?_cons, h]

theorem setV_cons (p : String × Int) (rest : List (String × Int))
    (k : String) (v : Int) :
    setV (p :: rest) k v =
      if p.1 == k then (k, v) :: rest else p :: setV rest k v := rfl

theorem lookupV_setV_self (l : List (String × Int)) (k : String) (v : Int) :
    lookupV (setV l k v) k = some v := by
  induction l with
  | nil => simp [setV, lookupV]
  | cons p rest ih =>
    rw [setV_cons]
    by_cases h : p.1 == k
    · rw [if_pos h, lookupV_cons]; simp
    · rw [if_neg h, lookupV_cons, if_neg h]; exact ih

theorem lookupV_setV_ne (l : List (String × Int)) (k k' : String)
    (v : Int) (h : k ≠ k') : lookupV (setV l k v) k' = lookupV l k' := by
  induction l with
  | nil => simp [setV, lookupV, h]
  | cons p rest ih =>
    rw [setV_cons]
    by_cases hp : p.1 == k
    · rw [if_pos hp, lookupV_cons, lookupV_cons]
      have : (k == k') = false := by simp [h]
      have hp' : (p.1 == k') = false := by
        simp only [beq_iff_eq] at hp ⊢
        simp [hp, h]
      simp [this, hp']
    · rw [if_neg hp, lookupV_cons, lookupV_cons]
      by_cases hq : p.1 == k'
      · simp [hq]
      · simp [hq, ih]

theorem mem_setV {q : String × Int} {l : List (String × Int)}
    {k : String} {v : Int} (h : q ∈ setV l k v) : q ∈ l ∨ q = (k, v) := by
  induction l with
  | nil => simp [setV] at h; simp [h]
  | cons p rest ih =>
    rw [setV_cons] at h
    by_cases hp : p.1 == k
    · rw [if_pos hp] at h
      rcases List.mem_cons.mp h with h1 | h1
      · right; exact h1
      · left; exact List.mem_cons_of_mem _ h1
    · rw [if_neg hp] at h
      rcases List.mem_cons.mp h with h1 | h1
      · left; simp [h1]
      · rcases ih h1 with h2 | h2
        · left; exact List.mem_cons_of_mem _ h2
        · right; exact h2

theorem clamp_range (x : Int) : 0 ≤ clamp x ∧ clamp x ≤ 100 := by
  simp only [clamp]; omega

-- ════════════════════════════════════════════════════════════════════
-- applyStatDelta step lemmas
-- ════════════════════════════════════════════════════════════════════

theorem applyStatDelta_range {acc : List (String × Int) × List (String × Int)}
    (hr : ∀ q ∈ acc.1, 0 ≤ q.2 ∧ q.2 ≤ 100) (sid : String) (d : Int) :
    ∀ q ∈ (applyStatDelta acc sid d).1, 0 ≤ q.2 ∧ q.2 ≤ 100 := by
  unfold applyStatDelta
  cases h : lookupV acc.1 sid with
  | none => exact hr
  | some old =>
    intro q hq
    rcases mem_setV hq with h1 | h1
    · exact hr q h1
    · rw [h1]; exact clamp_range _

theorem applyStatDelta_untouched
    {acc : List (String × Int) × List (String × Int)}
    (k sid : String) (d : Int) (hne : k ≠ sid) :
    lookupV (applyStatDelta acc k d).1 sid = lookupV acc.1 sid ∧
    lookupV (applyStatDelta acc k d).2 sid = lookupV acc.2 sid := by
  unfold applyStatDelta
  cases h : lookupV acc.1 k with
  | none => exact ⟨rfl, rfl⟩
  | some old => exact ⟨lookupV_setV_ne _ _ _ _ hne, lookupV_setV_ne _ _ _ _ hne⟩

theorem applyStatDelta_none
    {acc : List (String × Int) × List (String × Int)}
    (k sid : String) (d : Int) (hs : lookupV acc.1 sid = none) :
    lookupV (applyStatDelta acc k d).1 sid = none ∧
    (lookupV acc.2 sid = none →
      lookupV (applyStatDelta acc k d).2 sid = none) := by
  by_cases hne : k = sid
  · subst hne
    unfold applyStatDelta
    rw [hs]
    exact ⟨hs, fun h => h⟩
  · have := @applyStatDelta_untouched acc k sid d hne
    rw [this.1, this.2]
    exact ⟨hs, fun h => h⟩

-- ════════════════════════════════════════════════════════════════════
-- Mapping-fold lemmas
-- ════════════════════════════════════════════════════════════════════

/-- The per-entry step of the `_update_stat` dict-format loop. -/
def statStep (acc : List (String × Int) × List (String × Int))
    (e : String × Option Int) :
    List (String × Int) × List (String × Int) :=
  match e.2 with
  | none => acc
  | some delta => applyStatDelta acc e.1 delta

theorem updateStatFn_mapping (stats : List (String × Int))
    (entries : List (String × Option Int)) :
    updateStatFn stats (.mapping entries) =
      entries.foldl statStep (stats, []) := by
  unfold updateStatFn statStep
  rfl

theorem fold_range (entries : List (String × Option Int)) :
    ∀ (acc : List (String × Int) × List (String × Int)),
      (∀ q ∈ acc.1, 0 ≤ q.2 ∧ q.2 ≤ 100) →
      ∀ q ∈ (entries.foldl statStep acc).1, 0 ≤ q.2 ∧ q.2 ≤ 100 := by
  induction entries with
  | nil => intro acc hr; simpa using hr
  | cons e rest ih =>
    intro acc hr
    rw [List.foldl_cons]
    apply ih
    unfold statStep
    cases e.2 with
    | none => exact hr
    | some d => exact applyStatDelta_range hr e.1 d

theorem fold_untouched (entries : List (String × Option Int)) :
    ∀ (acc : List (String × Int) × List (String × Int)) (sid : String),
      sid ∉ entries.map (fun p => p.1) →
      lookupV (entries.foldl statStep acc).1 sid = lookupV acc.1 sid ∧
      lookupV (entries.foldl statStep acc).2 sid = lookupV acc.2 sid := by
  induction entries with
  | nil => intro acc sid _; exact ⟨rfl, rfl⟩
  | cons e rest ih =>
    intro acc sid hsid
    simp only [List.map_cons, List.mem_cons, not_or] at hsid
    rw [List.foldl_cons]
    have hstep : lookupV (statStep acc e).1 sid = lookupV acc.1 sid ∧
        lookupV (statStep acc e).2 sid = lookupV acc.2 sid := by
      unfold statStep
      cases e.2 with
      | none => exact ⟨rfl, rfl⟩
      | some d =>
          exact applyStatDelta_untouched e.1 sid d (fun h => hsid.1 h.symm)
    have := ih (statStep acc e) sid hsid.2
    rw [this.1, this.2, hstep.1, hstep.2]
    exact ⟨rfl, rfl⟩

theorem fold_none (entries : List (String × Option Int)) :
    ∀ (acc : List (String × Int) × List (String × Int)) (sid : String),
      lookupV acc.1 sid = none → lookupV acc.2 sid = none →
      lookupV (entries.foldl statStep acc).1 sid = none ∧
      lookupV (entries.foldl statStep acc).2 sid = none := by
  induction entries with
  | nil => intro acc sid h1 h2; exact ⟨h1, h2⟩
  | cons e rest ih =>
    intro acc sid h1 h2
    rw [List.foldl_cons]
    have hstep : lookupV (statStep acc e).1 sid = none ∧
        lookupV (statStep acc e).2 sid = none := by
      unfold statStep
      cases e.2 with
      | none => exact ⟨h1, h2⟩
      | some d =>
          have := applyStatDelta_none e.1 sid d h1
          exact ⟨this.1, this.2 h2⟩
    exact ih _ _ hstep.1 hstep.2

theorem fold_net (entries : List (String × Option Int)) :
    ∀ (stats0 cur ch : List (String × Int)),
      (entries.map (fun p => p.1)).Nodup →
      (∀ sid, sid ∈ entries.map (fun p => p.1) →
        lookupV ch sid = none ∧ lookupV cur sid = lookupV stats0 sid) →
      (∀ sid c, lookupV ch sid = some c →
        ∃ old new, lookupV stats0 sid = some old ∧
          lookupV cur sid = some new ∧ c = new - old) →
      ∀ sid c, lookupV (entries.foldl statStep (cur, ch)).2 sid = some c →
        ∃ old new, lookupV stats0 sid = some old ∧
          lookupV (entries.foldl statStep (cur, ch)).1 sid = some new ∧
          c = new - old := by
  induction entries with
  | nil =>
    intro stats0 cur ch _ _ hch sid c hc
    obtain ⟨old, new, h1, h2, h3⟩ := hch sid c hc
    exact ⟨old, new, h1, h2, h3⟩
  | cons e rest ih =>
    intro stats0 cur ch hnd hfresh hch sid c hc
    simp only [List.map_cons, List.nodup_cons] at hnd
    rw [List.foldl_cons] at hc ⊢
    have hkey := hfresh e.1 (by simp)
    rcases he : e.2 with _ | d
    · -- non-coercible delta: the step is a no-op
      have hstep : statStep (cur, ch) e = (cur, ch) := by
        unfold statStep; rw [he]
      rw [hstep] at hc ⊢
      refine ih stats0 cur ch hnd.2 ?_ hch sid c hc
      intro x hx
      exact hfresh x (by simp [hx])
    · have hstep : statStep (cur, ch) e = applyStatDelta (cur, ch) e.1 d := by
        unfold statStep; rw [he]
      rw [hstep] at hc ⊢
      rcases hcv : lookupV cur e.1 with _ | old
      · -- unknown stat id: the step is a no-op
        have hskip : applyStatDelta (cur, ch) e.1 d = (cur, ch) := by
          unfold applyStatDelta; rw [hcv]
        rw [hskip] at hc ⊢
        refine ih stats0 cur ch hnd.2 ?_ hch sid c hc
        intro x hx
        exact hfresh x (by simp [hx])
      · -- known stat: clamp, write back, record the net change
        have happ : applyStatDelta (cur, ch) e.1 d =
            (setV cur e.1 (clamp (old + d)),
             setV ch e.1 (clamp (old + d) - old)) := by
          unfold applyStatDelta; rw [hcv]
        rw [happ] at hc ⊢
        refine ih stats0 _ _ hnd.2 ?_ ?_ sid c hc
        · intro x hx
          have hxe : e.1 ≠ x := fun h => hnd.1 (h ▸ hx)
          constructor
          · rw [lookupV_setV_ne _ _ _ _ hxe]
            exact (hfresh x (by simp [hx])).1
          · rw [lookupV_setV_ne _ _ _ _ hxe]
            exact (hfresh x (by simp [hx])).2
        · intro x cx hcx
          by_cases hxe : e.1 = x
          · subst hxe
            rw [lookupV_setV_self] at hcx
            refine ⟨old, clamp (old + d), ?_, lookupV_setV_self _ _ _, ?_⟩
            · rw [← hkey.2]; exact hcv
            · injection hcx with h; omega
          · rw [lookupV_setV_ne _ _ _ _ hxe] at hcx
            obtain ⟨o, n, h1, h2, h3⟩ := hch x cx hcx
            exact ⟨o, n, h1, by rw [lookupV_setV_ne _ _ _ _ hxe]; exact h2, h3⟩

theorem fold_skipped (entries : List (String × Option Int)) :
    ∀ (cur ch : List (String × Int)) (sid : String),
      (entries.map (fun p => p.1)).Nodup →
      (sid, (none : Option Int)) ∈ entries →
      lookupV (entries.foldl statStep (cur, ch)).1 sid = lookupV cur sid ∧
      lookupV (entries.foldl statStep (cur, ch)).2 sid = lookupV ch sid := by
  induction entries with
  | nil => intro cur ch sid _ hmem; simp at hmem
  | cons e rest ih =>
    intro cur ch sid hnd hmem
    simp only [List.map_cons, List.nodup_cons] at hnd
    rw [List.foldl_cons]
    rcases List.mem_cons.mp hmem with h1 | h1
    · -- this entry is the skipped one; its key never recurs
      have hstep : statStep (cur, ch) e = (cur, ch) := by
        unfold statStep; rw [← h1]
      rw [hstep]
      have hsid : sid ∉ rest.map (fun p => p.1) := by
        have : e.1 = sid := by rw [← h1]
        rw [← this]; exact hnd.1
      exact fold_untouched rest (cur, ch) sid hsid
    · -- the skipped entry is further on; this step has a different key
      have hne : e.1 ≠ sid := by
        intro h
        exact hnd.1 (h ▸ List.mem_map_of_mem (fun p => p.1) h1)
      have hstep : lookupV (statStep (cur, ch) e).1 sid = lookupV cur sid ∧
          lookupV (statStep (cur, ch) e).2 sid = lookupV ch sid := by
        unfold statStep
        rcases e.2 with _ | d
        · exact ⟨rfl, rfl⟩
        · exact applyStatDelta_untouched e.1 sid d hne
      have := ih (statStep (cur, ch) e).1 (statStep (cur, ch) e).2 sid
        hnd.2 h1
      rw [← hstep.1, ← hstep.2]
      simpa using this

/-- View both `_update_stat` calling conventions as one entry list:
the explicit `(stat_id, delta)` form behaves as a single-entry dict. -/
def toEntries : UpdateStatParams → List (String × Option Int)
  | .explicitPair sid d => [(sid, d)]
  | .mapping es => es

theorem updateStatFn_eq_fold (stats : List (String × Int))
    (p : UpdateStatParams) :
    updateStatFn stats p = (toEntries p).foldl statStep (stats, []) := by
  cases p with
  | explicitPair sid d =>
    cases d with
    | none => rfl
    | some dv => rfl
  | mapping es => exact updateStatFn_mapping stats es

theorem toEntries_nodup {p : UpdateStatParams} (hk : p.keysUnique) :
    ((toEntries p).map (fun q => q.1)).Nodup := by
  cases p with
  | explicitPair sid d => simp [toEntries]
  | mapping es => exact hk

theorem updateStatFn_range (stats : List (String × Int))
    (p : UpdateStatParams) (hr : ∀ q ∈ stats, 0 ≤ q.2 ∧ q.2 ≤ 100) :
    ∀ q ∈ (updateStatFn stats p).1, 0 ≤ q.2 ∧ q.2 ≤ 100 := by
  rw [updateStatFn_eq_fold]
  exact fold_range _ _ hr

/-- The stats dict after a whole sequence of `update_stat` calls. -/
def statsAfterCalls (stats : List (String × Int))
    (ps : List UpdateStatParams) : List (String × Int) :=
  ps.foldl (fun st p => (updateStatFn st p).1) stats

/-- C2.  Every `update_stat` call leaves every stat clamped inside
[0, 100] (and so does any sequence of calls); each recorded change is
the net applied change, new value minus old value; unknown stat ids
and non-integer-coercible deltas change nothing and record nothing. -/
theorem C2_update_stat_clamped (stats : List (String × Int))
    (p : UpdateStatParams) (hr : ∀ q ∈ stats, 0 ≤ q.2 ∧ q.2 ≤ 100)
    (hk : p.keysUnique) :
    (∀ q ∈ (updateStatFn stats p).1, 0 ≤ q.2 ∧ q.2 ≤ 100) ∧
    (∀ sid c, lookupV (updateStatFn stats p).2 sid = some c →
      ∃ old new, lookupV stats sid = some old ∧
        lookupV (updateStatFn stats p).1 sid = some new ∧ c = new - old) ∧
    (∀ sid, lookupV stats sid = none →
      lookupV (updateStatFn stats p).1 sid = none ∧
      lookupV (updateStatFn stats p).2 sid = none) ∧
    (∀ sid, p = .explicitPair sid none → updateStatFn stats p = (stats, [])) ∧
    (∀ entries sid, p = .mapping entries →
      (sid, (none : Option Int)) ∈ entries →
      lookupV (updateStatFn stats p).1 sid = lookupV stats sid ∧
      lookupV (updateStatFn stats p).2 sid = none) ∧
    (∀ ps : List UpdateStatParams,
      ∀ q ∈ statsAfterCalls stats ps, 0 ≤ q.2 ∧ q.2 ≤ 100) := by
  refine ⟨updateStatFn_range stats p hr, ?_, ?_, ?_, ?_, ?_⟩
  · rw [updateStatFn_eq_fold]
    exact fold_net (toEntries p) stats stats [] (toEntries_nodup hk)
      (fun sid _ => ⟨rfl, rfl⟩)
      (fun sid c h => by simp [lookupV] at h)
  · intro sid hnone
    rw [updateStatFn_eq_fold]
    exact fold_none (toEntries p) (stats, []) sid hnone (by simp [lookupV])
  · intro sid hp
    subst hp
    rfl
  · intro entries sid hp hmem
    subst hp
    rw [updateStatFn_eq_fold]
    have := fold_skipped (toEntries (.mapping entries)) stats [] sid
      (toEntries_nodup hk) hmem
    exact ⟨this.1, by rw [this.2]; simp [lookupV]⟩
  · intro ps
    induction ps generalizing stats with
    | nil => intro q hq; exact hr q hq
    | cons p0 rest ih =>
      intro q hq
      exact ih (updateStatFn stats p0).1
        (updateStatFn_range stats p0 hr) q hq

/-- Witness for C2: starting at treasury 95, a requested +20 yields
exactly 100 with a recorded net change of +5, and the range invariant
holds. -/
theorem C2_update_stat_clamped_witness :
    updateStatFn [("treasury", 95)] (.mapping [("treasury", some 20)]) =
      ([("treasury", 100)], [("treasury", 5)]) ∧
    (∀ q ∈ (updateStatFn [("treasury", 95)]
        (.mapping [("treasury", some 20)])).1, 0 ≤ q.2 ∧ q.2 ≤ 100) :=
  ⟨rfl,
   (C2_update_stat_clamped [("treasury", 95)]
      (.mapping [("treasury", some 20)]) (by decide)
      (by simp [UpdateStatParams.keysUnique])).1⟩

-- ════════════════════════════════════════════════════════════════════
-- Claim C1: complete_resurrection and the season skip
-- ════════════════════════════════════════════════════════════════════

/-- Fixture: mid-season death in season 0 (treasury depleted). -/
def deadGB : GlobalBlackboard :=
  { fixtureGB with
      day := 15
      turn := 3
      stats := [("treasury", 0), ("military", 50)] }

def deadEngine : Engine :=
  { fixtureEngine with state := deadGB, awaiting_resurrection := true }

/-- Fixture: death during the last season (index 3) of year 1. -/
def deadEngineLate : Engine :=
  { fixtureEngine with
      state := { deadGB with season_index := 3 }
      awaiting_resurrection := true }

/-- C1 (failing-input evaluation).  `complete_resurrection` runs the
season skip twice — once inside `DeathLoop.resurrect` and once via
`advance_to_next_season` — so from a death in season 0 the new life
starts in season 2 (not season 1 as the claim states), and from a
death in season 3 it starts in season 1 of the next year (not season
0).  Day 1 and the first-day-after-death flag do hold. -/
theorem C1_complete_resurrection_double_skip :
    (deadEngine.completeResurrection).state.season_index = 2 ∧
    (deadEngine.completeResurrection).state.day = 1 ∧
    (deadEngine.completeResurrection).state.year = 1 ∧
    (deadEngine.completeResurrection).state.is_first_day_after_death = true ∧
    (deadEngineLate.completeResurrection).state.season_index = 1 ∧
    (deadEngineLate.completeResurrection).state.year = 2 := by
  refine ⟨?_, ?_, ?_, ?_, ?_, ?_⟩ <;> rfl

-- ════════════════════════════════════════════════════════════════════
-- Claim C3: the resurrection reset
-- ════════════════════════════════════════════════════════════════════

theorem nodup_key_eq {α : Type} :
    ∀ {l : List (String × α)}, (l.map (fun p => p.1)).Nodup →
      ∀ {k : String} {a b : α}, (k, a) ∈ l → (k, b) ∈ l → a = b := by
  intro l
  induction l with
  | nil => intro _ k a b ha; simp at ha
  | cons p rest ih =>
    intro hnd k a b ha hb
    simp only [List.map_cons, List.nodup_cons] at hnd
    rcases List.mem_cons.mp ha with h1 | h1 <;>
      rcases List.mem_cons.mp hb with h2 | h2
    · rw [← h2] at h1; exact congrArg Prod.snd h1
    · exfalso
      apply hnd.1
      have : p.1 = k := by rw [← h1]
      rw [this]
      exact List.mem_map_of_mem (fun q => q.1) h2
    · exfalso
      apply hnd.1
      have : p.1 = k := by rw [← h2]
      rw [this]
      exact List.mem_map_of_mem (fun q => q.1) h1
    · exact ih hnd.2 h1 h2


/-- Under unique node ids, `partial_reset` with the fired endings as
the keep set leaves a node fired exactly when it was a fired ending
(all other node fields are untouched). -/
theorem dagReset_fired (d : MacroDAG)
    (hnd : (d.nodes.map (fun p => p.1)).Nodup) :
    (d.dagReset ((d.nodes.filter
        (fun p => p.2.is_ending && p.2.is_fired)).map
          (fun p => p.1))).nodes =
      d.nodes.map (fun pr =>
        (pr.1, { pr.2 with is_fired := pr.2.is_fired && pr.2.is_ending })) := by
  unfold MacroDAG.dagReset
  simp only
  apply List.map_congr_left
  intro e he
  obtain ⟨k, n⟩ := e
  have hmem_iff : k ∈ (d.nodes.filter
      (fun p => p.2.is_ending && p.2.is_fired)).map (fun p => p.1) ↔
      (n.is_ending && n.is_fired) = true := by
    constructor
    · intro hin
      obtain ⟨q, hq, hq1⟩ := List.mem_map.mp hin
      have hqf := List.mem_filter.mp hq
      have hqmem : (k, q.2) ∈ d.nodes := by
        have : q = (k, q.2) := by
          rw [← hq1]
        rw [← this]
        exact hqf.1
      have : q.2 = n := nodup_key_eq hnd hqmem he
      rw [← this]
      exact hqf.2
    · intro hb
      exact List.mem_map.mpr ⟨(k, n), List.mem_filter.mpr ⟨he, hb⟩, rfl⟩
  by_cases hcond : (!((d.nodes.filter
      (fun p => p.2.is_ending && p.2.is_fired)).map
        (fun p => p.1)).isEmpty && ((d.nodes.filter
      (fun p => p.2.is_ending && p.2.is_fired)).map
        (fun p => p.1)).contains k) = true
  · -- the keep branch: the node is a fired ending and stays untouched
    have hcond2 := hcond
    simp only [Bool.and_eq_true] at hcond2
    have hk := List.mem_of_elem_eq_true hcond2.2
    have hb := hmem_iff.mp hk
    simp only [Bool.and_eq_true] at hb
    obtain ⟨h1, h2⟩ := hb
    rw [if_pos hcond]
    obtain ⟨nid, npd, ncond, ncalls, nend, netext, nfired⟩ := n
    simp only at h1 h2
    subst h1
    subst h2
    simp
  · rw [if_neg hcond]
    by_cases hend : n.is_ending = true
    · -- an ending node is never un-fired by the reset
      rw [if_neg (by simp [hend])]
      obtain ⟨nid, npd, ncond, ncalls, nend, netext, nfired⟩ := n
      simp only at hend
      subst hend
      simp
    · -- a non-ending node is un-fired
      have hend2 : n.is_ending = false := by
        rcases hb : n.is_ending with _ | _
        · rfl
        · exact absurd hb hend
      rw [if_pos (by simp [hend2])]
      obtain ⟨nid, npd, ncond, ncalls, nend, netext, nfired⟩ := n
      simp only at hend2
      subst hend2
      simp

/-- C3.  The resurrection reset (`GameEngine.resurrect`, which wraps
`DeathLoop.resurrect`): karma is the non-`_temp`-prefixed tags capped
at 10 and appended to the karma history; the tag set becomes exactly
the karma; every stat becomes exactly 50; the life number increments
by exactly 1; every NPC appearance counter resets to 0; active events,
the deck and the pending death cards are cleared; and the DAG is
partially reset leaving a node fired exactly when it was a fired
ending. -/
theorem C3_resurrection_reset (e : Engine)
    (hnd : (e.dag.nodes.map (fun p => p.1)).Nodup) :
    (e.resurrect).2 =
      (e.state.tags.filter (fun t => !strStartsWith t "_temp")).take 10 ∧
    (e.resurrect).1.state.karma = e.state.karma ++ (e.resurrect).2 ∧
    (e.resurrect).1.state.tags = (e.resurrect).2 ∧
    (e.resurrect).1.state.stats = e.state.stats.map (fun p => (p.1, 50)) ∧
    (∀ q ∈ (e.resurrect).1.state.stats, q.2 = 50) ∧
    (e.resurrect).1.state.life_number = e.state.life_number + 1 ∧
    (e.resurrect).1.state.npcs =
      e.state.npcs.map (fun n => { n with npc_appearance_count := 0 }) ∧
    (∀ n ∈ (e.resurrect).1.state.npcs, n.npc_appearance_count = 0) ∧
    (e.resurrect).1.events = [] ∧
    (e.resurrect).1.deque.cards = [] ∧
    (e.resurrect).1.state.pending_death_cards = [] ∧
    (e.resurrect).1.dag.nodes = e.dag.nodes.map (fun pr =>
      (pr.1, { pr.2 with is_fired := pr.2.is_fired && pr.2.is_ending })) := by
  refine ⟨rfl, rfl, rfl, rfl, ?_, rfl, rfl, ?_, rfl, rfl, rfl, ?_⟩
  · intro q hq
    have : (e.resurrect).1.state.stats = e.state.stats.map (fun p => (p.1, 50)) := rfl
    rw [this] at hq
    obtain ⟨p, _, hp⟩ := List.mem_map.mp hq
    rw [← hp]
  · intro n hn
    have : (e.resurrect).1.state.npcs =
        e.state.npcs.map (fun m => { m with npc_appearance_count := 0 }) := rfl
    rw [this] at hn
    obtain ⟨m, _, hm⟩ := List.mem_map.mp hn
    rw [← hm]
  · exact dagReset_fired e.dag hnd

/-- A condition expression that evaluates to `False`. -/
def condFalse : Cond := fun _ => some false

def plotEnd : PlotNode :=
  { id := "end1", plot_description := "the end", condition := condFalse,
    calls := [], is_ending := true, ending_text := some "over",
    is_fired := true }

def plotMid : PlotNode :=
  { id := "mid", plot_description := "midpoint", condition := condFalse,
    calls := [], is_ending := false, ending_text := none,
    is_fired := true }

/-- Fixture engine for the resurrection-reset witness: tags
brave/_temp_scared, boundary stats, one NPC with 7 appearances, one
fired ending and one fired non-ending node. -/
def resEngine : Engine :=
  { fixtureEngine with
      state := { fixtureGB with
        tags := ["brave", "_temp_scared"],
        stats := [("treasury", 0), ("military", 100)],
        npcs := [⟨"chancellor", "Aldric", "Chancellor", "", true, 7⟩] },
      dag := ⟨[("end1", plotEnd), ("mid", plotMid)], [("mid", "end1")]⟩ }

/-- Witness for C3: concrete resurrection — karma is exactly
`["brave"]`, stats reset to 50, life number 2, NPC counter 0, events
cleared, and only the fired ending stays fired. -/
theorem C3_resurrection_reset_witness :
    (resEngine.dag.nodes.map (fun p => p.1)).Nodup ∧
    (resEngine.resurrect).2 = ["brave"] ∧
    (resEngine.resurrect).1.state.tags = ["brave"] ∧
    (resEngine.resurrect).1.state.stats =
      [("treasury", 50), ("military", 50)] ∧
    (resEngine.resurrect).1.state.life_number = 2 ∧
    (resEngine.resurrect).1.state.npcs.map
      (fun n => n.npc_appearance_count) = [0] ∧
    (resEngine.resurrect).1.dag.nodes.map (fun p => p.2.is_fired) =
      [true, false] ∧
    (resEngine.resurrect).1.events = [] :=
  ⟨by simp [resEngine, fixtureEngine], by decide, by decide, by decide,
   by decide, by decide, by decide,
   (C3_resurrection_reset resEngine
     (by simp [resEngine, fixtureEngine])).2.2.2.2.2.2.2.2.1⟩

-- ════════════════════════════════════════════════════════════════════
-- Claim C8: fire_node
-- ════════════════════════════════════════════════════════════════════

theorem plotNode_set_fired_self {n : PlotNode} (h : n.is_fired = true) :
    { n with is_fired := true } = n := by
  obtain ⟨a, b, c, d4, e, f, g⟩ := n
  simp only at h
  subst h
  rfl

/-- C8 (counterexample).  `fire_node` on an already-fired id does not
return nothing: it returns the node again (here the fired ending
`plotEnd`), so the claim's "already-fired ids return nothing" is
false. -/
theorem C8_fire_node_counterexample :
    plotEnd.is_fired = true ∧
    (MacroDAG.fire_node ⟨[("end1", plotEnd)], []⟩ "end1").2 =
      some plotEnd := by
  exact ⟨rfl, rfl⟩

/-- C8 (amended).  `fire_node` returns nothing exactly for unknown
ids; for any known id — already fired or not — it marks the node fired
and returns it, and re-firing an already-fired node leaves the node
set unchanged (the state effect is idempotent). -/
theorem C8_fire_node_amended (d : MacroDAG) (nid : String) :
    (d.lookupNode nid = none → d.fire_node nid = (d, none)) ∧
    (∀ n, d.lookupNode nid = some n →
      (d.fire_node nid).2 = some { n with is_fired := true } ∧
      ((d.nodes.map (fun p => p.1)).Nodup → n.is_fired = true →
        (d.fire_node nid).1.nodes = d.nodes)) := by
  constructor
  · intro hnone
    unfold MacroDAG.fire_node
    rw [hnone]
  · intro n hsome
    constructor
    · unfold MacroDAG.fire_node
      rw [hsome]
    · intro hnd hf
      unfold MacroDAG.fire_node
      rw [hsome]
      simp only
      have hmem : (nid, n) ∈ d.nodes := by
        unfold MacroDAG.lookupNode at hsome
        obtain ⟨q, hq1, hq2⟩ := Option.map_eq_some'.mp hsome
        have hq3 := List.find?_some hq1
        have hq4 := List.mem_of_find?_eq_some hq1
        have : q.1 = nid := by simpa using hq3
        rw [← hq2, ← this]
        exact hq4
      have : ∀ e ∈ d.nodes,
          (if e.1 == nid then (e.1, { n with is_fired := true }) else e) = e := by
        intro e he
        by_cases hk : e.1 == nid
        · rw [if_pos hk]
          have hk' : e.1 = nid := by simpa using hk
          have he2 : (nid, e.2) ∈ d.nodes := by
            rw [← hk']
            exact he
          have : e.2 = n := nodup_key_eq hnd he2 hmem
          rw [plotNode_set_fired_self hf, ← this]
        · rw [if_neg hk]
      rw [List.map_congr_left this, List.map_id']

/-- Witness for C8: the amended behaviour on a one-node DAG with a
fired ending — unknown ids give nothing, the known fired id returns
the node and leaves the node set unchanged. -/
theorem C8_fire_node_amended_witness :
    (MacroDAG.lookupNode ⟨[("end1", plotEnd)], []⟩ "zzz" = none →
      MacroDAG.fire_node ⟨[("end1", plotEnd)], []⟩ "zzz" =
        (⟨[("end1", plotEnd)], []⟩, none)) ∧
    (MacroDAG.fire_node ⟨[("end1", plotEnd)], []⟩ "end1").2 =
      some { plotEnd with is_fired := true } ∧
    (MacroDAG.fire_node ⟨[("end1", plotEnd)], []⟩ "end1").1.nodes =
      [("end1", plotEnd)] :=
  ⟨(C8_fire_node_amended ⟨[("end1", plotEnd)], []⟩ "zzz").1,
   ((C8_fire_node_amended ⟨[("end1", plotEnd)], []⟩ "end1").2 plotEnd rfl).1,
   ((C8_fire_node_amended ⟨[("end1", plotEnd)], []⟩ "end1").2 plotEnd rfl).2
     (by simp) rfl⟩

-- ════════════════════════════════════════════════════════════════════
-- Claim C9: handle_death
-- ════════════════════════════════════════════════════════════════════

/-- A pre-generated death card and a matching death report. -/
def preDeathCard : Card := fixtureInfo "pregen_death" 5 "info"

def deathReport : DeathInfo :=
  { cause_stat := "treasury", cause_value := 0, turn := 3,
    life_number := 1, tags_at_death := [],
    stats_at_death := [("treasury", 0), ("military", 50)] }

def pendingEngine : Engine :=
  { fixtureEngine with
      state := { fixtureGB with
        pending_death_cards := [("death_treasury_min", preDeathCard)] } }

/-- C9 (counterexample).  `handle_death` pops the pre-generated card
out of `pending_death_cards`, so that component of the state is
mutated — the claim's "every other component … left unchanged" fails
on any state holding a matching pre-generated card. -/
theorem C9_handle_death_counterexample :
    pendingEngine.state.pending_death_cards =
      [("death_treasury_min", preDeathCard)] ∧
    (pendingEngine.handleDeath deathReport "ab12cd34").state.pending_death_cards
      = [] := by
  exact ⟨rfl, rfl⟩

theorem eraseKey_absent {α : Type} (l : List (String × α)) (k : String)
    (h : lookupA l k = none) : eraseKey l k = l := by
  apply List.filter_eq_self.mpr
  intro p hp
  unfold lookupA at h
  rw [Option.map_eq_none'] at h
  rw [List.find?_eq_none] at h
  have := h p hp
  simpa using this

/-- C9 (amended).  `handle_death` enqueues the looked-up (or
synthesized fallback) death card and sets the awaiting-resurrection
flag, and leaves every component of the state unchanged except that
the looked-up key is removed from `pending_death_cards`. -/
theorem C9_handle_death_frame (e : Engine) (death : DeathInfo)
    (fresh : String) :
    (e.handleDeath death fresh).state.stats = e.state.stats ∧
    (e.handleDeath death fresh).state.tags = e.state.tags ∧
    (e.handleDeath death fresh).state.day = e.state.day ∧
    (e.handleDeath death fresh).state.turn = e.state.turn ∧
    (e.handleDeath death fresh).state.season_index = e.state.season_index ∧
    (e.handleDeath death fresh).state.year = e.state.year ∧
    (e.handleDeath death fresh).state.life_number = e.state.life_number ∧
    (e.handleDeath death fresh).state.npcs = e.state.npcs ∧
    (e.handleDeath death fresh).state.karma = e.state.karma ∧
    (e.handleDeath death fresh).events = e.events ∧
    (e.handleDeath death fresh).deque = e.deque ∧
    (e.handleDeath death fresh).dag = e.dag ∧
    (e.handleDeath death fresh).job_queue = e.job_queue ∧
    (e.handleDeath death fresh).state.welcome_card = e.state.welcome_card ∧
    (e.handleDeath death fresh).state.reborn_card = e.state.reborn_card ∧
    (e.handleDeath death fresh).state.season_start_card =
      e.state.season_start_card ∧
    (e.handleDeath death fresh).state.pending_death_cards =
      eraseKey e.state.pending_death_cards (Engine.deathCardKey death) ∧
    (e.handleDeath death fresh).awaiting_resurrection = true ∧
    (∃ c, (e.handleDeath death fresh).immediate_deque =
      e.immediate_deque ++ [c]) := by
  unfold Engine.handleDeath
  cases hl : lookupA e.state.pending_death_cards
      (Engine.deathCardKey death) with
  | none =>
    refine ⟨rfl, rfl, rfl, rfl, rfl, rfl, rfl, rfl, rfl, rfl, rfl, rfl, rfl,
      rfl, rfl, rfl, ?_, rfl, ⟨_, rfl⟩⟩
    exact (eraseKey_absent _ _ hl).symm
  | some c =>
    exact ⟨rfl, rfl, rfl, rfl, rfl, rfl, rfl, rfl, rfl, rfl, rfl, rfl, rfl,
      rfl, rfl, rfl, rfl, rfl, ⟨c, rfl⟩⟩

-- ════════════════════════════════════════════════════════════════════
-- Deck lemmas (claims C5 and C10)
-- ════════════════════════════════════════════════════════════════════

/-- The deque's ascending-priority ordering invariant. -/
def sortedByPriority (l : List Card) : Prop :=
  List.Pairwise (fun a b => a.priority ≤ b.priority) l

theorem popFirstCommon_none {l : List Card} (h : popFirstCommon l = none) :
    ∀ c ∈ l, c.source ≠ "common" := by
  induction l with
  | nil => intro c hc; simp at hc
  | cons x rest ih =>
    simp only [popFirstCommon] at h
    by_cases hx : x.source == "common"
    · rw [if_pos hx] at h; exact absurd h (by simp)
    · rw [if_neg hx] at h
      intro c hc
      rcases List.mem_cons.mp hc with h1 | h1
      · rw [h1]; simpa using hx
      · cases hrec : popFirstCommon rest with
        | none => exact ih hrec c h1
        | some pr =>
          rw [hrec] at h
          obtain ⟨d, m⟩ := pr
          exact absurd h (by simp)

theorem popFirstCommon_none_of {l : List Card}
    (h : ∀ c ∈ l, c.source ≠ "common") : popFirstCommon l = none := by
  induction l with
  | nil => rfl
  | cons x rest ih =>
    simp only [popFirstCommon]
    have hx : (x.source == "common") = false := by
      have := h x (List.mem_cons_self x rest)
      simpa using this
    rw [if_neg (by simp [hx])]
    rw [ih (fun c hc => h c (List.mem_cons_of_mem x hc))]

theorem popFirstCommon_filter {l : List Card} {c : Card} {l' : List Card}
    (h : popFirstCommon l = some (c, l')) :
    c.source = "common" ∧
    l'.filter (fun x => x.source != "common") =
      l.filter (fun x => x.source != "common") := by
  induction l generalizing l' with
  | nil => simp [popFirstCommon] at h
  | cons x rest ih =>
    simp only [popFirstCommon] at h
    by_cases hx : x.source == "common"
    · rw [if_pos hx] at h
      simp only [Option.some.injEq, Prod.mk.injEq] at h
      obtain ⟨rfl, rfl⟩ := h
      refine ⟨by simpa using hx, ?_⟩
      rw [List.filter_cons]
      have hxf : (x.source != "common") = false := by
        simpa using hx
      simp [hxf]
    · rw [if_neg hx] at h
      cases hrec : popFirstCommon rest with
      | none => rw [hrec] at h; exact absurd h (by simp)
      | some pr =>
        obtain ⟨d, m⟩ := pr
        rw [hrec] at h
        simp only [Option.some.injEq, Prod.mk.injEq] at h
        obtain ⟨rfl, rfl⟩ := h
        obtain ⟨h1, h2⟩ := ih hrec
        refine ⟨h1, ?_⟩
        rw [List.filter_cons, List.filter_cons, h2]

theorem popFirstCommon_common {l : List Card} {c : Card} {l' : List Card}
    (h : popFirstCommon l = some (c, l')) : c.source = "common" :=
  (popFirstCommon_filter h).1

/-- On a sorted list the first common card has minimal priority among
all common cards. -/
theorem popFirstCommon_min {l : List Card} {c : Card} {l' : List Card}
    (hs : sortedByPriority l) (h : popFirstCommon l = some (c, l')) :
    ∀ x ∈ l, x.source = "common" → c.priority ≤ x.priority := by
  induction l generalizing l' with
  | nil => simp [popFirstCommon] at h
  | cons y rest ih =>
    simp only [popFirstCommon] at h
    unfold sortedByPriority at hs
    rw [List.pairwise_cons] at hs
    by_cases hy : y.source == "common"
    · rw [if_pos hy] at h
      simp only [Option.some.injEq, Prod.mk.injEq] at h
      obtain ⟨rfl, rfl⟩ := h
      intro x hx _
      rcases List.mem_cons.mp hx with h1 | h1
      · rw [h1]
      · exact hs.1 x h1
    · rw [if_neg hy] at h
      cases hrec : popFirstCommon rest with
      | none => rw [hrec] at h; exact absurd h (by simp)
      | some pr =>
        obtain ⟨d, m⟩ := pr
        rw [hrec] at h
        simp only [Option.some.injEq, Prod.mk.injEq] at h
        obtain ⟨rfl, rfl⟩ := h
        intro x hx hxc
        rcases List.mem_cons.mp hx with h1 | h1
        · exfalso
          rw [h1] at hxc
          simp [hxc] at hy
        · exact ih hs.2 hrec x h1 hxc

theorem evict_le_or_noCommon (cap : Nat) (l : List Card) :
    (evictIfNeeded cap l).length ≤ cap ∨
      ∀ c ∈ evictIfNeeded cap l, c.source ≠ "common" := by
  generalize hn : l.length = n
  induction n using Nat.strong_induction_on generalizing l with
  | _ n ih =>
    rw [evictIfNeeded_eq]
    by_cases hlen : l.length > cap
    · rw [if_pos hlen]
      cases hp : popFirstCommon l with
      | none => exact Or.inr (popFirstCommon_none hp)
      | some pr =>
        obtain ⟨c, l'⟩ := pr
        have hlt : l'.length < n := by
          have := popFirstCommon_length hp
          omega
        exact ih l'.length hlt l' rfl
    · rw [if_neg hlen]
      left
      omega

theorem evict_id_of_le (cap : Nat) (l : List Card)
    (h : l.length ≤ cap) : evictIfNeeded cap l = l := by
  rw [evictIfNeeded_eq]
  rw [if_neg (by omega)]

theorem evict_filter (cap : Nat) (l : List Card) :
    (evictIfNeeded cap l).filter (fun x => x.source != "common") =
      l.filter (fun x => x.source != "common") := by
  generalize hn : l.length = n
  induction n using Nat.strong_induction_on generalizing l with
  | _ n ih =>
    rw [evictIfNeeded_eq]
    by_cases hlen : l.length > cap
    · rw [if_pos hlen]
      cases hp : popFirstCommon l with
      | none => rfl
      | some pr =>
        obtain ⟨c, l'⟩ := pr
        have hlt : l'.length < n := by
          have := popFirstCommon_length hp
          omega
        rw [ih l'.length hlt l' rfl]
        exact (popFirstCommon_filter hp).2
    · rw [if_neg hlen]

theorem evict_noCommon_id (cap : Nat) (l : List Card)
    (h : ∀ c ∈ l, c.source ≠ "common") : evictIfNeeded cap l = l := by
  rw [evictIfNeeded_eq]
  by_cases hlen : l.length > cap
  · rw [if_pos hlen, popFirstCommon_none_of h]
  · rw [if_neg hlen]

theorem evict_allCommon_length (cap : Nat) (l : List Card)
    (hc : ∀ c ∈ l, c.source = "common") (hlen : cap ≤ l.length) :
    (evictIfNeeded cap l).length = cap := by
  generalize hn : l.length = n
  induction n using Nat.strong_induction_on generalizing l with
  | _ n ih =>
    rw [evictIfNeeded_eq]
    by_cases hgt : l.length > cap
    · rw [if_pos hgt]
      cases l with
      | nil => simp at hgt
      | cons x rest =>
        have hx : (x.source == "common") = true := by
          simpa using hc x (List.mem_cons_self x rest)
        have hp : popFirstCommon (x :: rest) = some (x, rest) := by
          simp only [popFirstCommon]
          rw [if_pos hx]
        rw [hp]
        have hlt : rest.length < n := by
          simp only [List.length_cons] at hn
          omega
        refine ih rest.length hlt rest
          (fun c hcm => hc c (List.mem_cons_of_mem x hcm)) ?_ rfl
        simp only [List.length_cons] at hgt
        omega
    · rw [if_neg hgt]
      omega

theorem insort_length (l : List Card) (c : Card) :
    (insortByPriority l c).length = l.length + 1 := by
  unfold insortByPriority
  rw [List.length_append, List.length_cons]
  have := congrArg List.length
    (List.takeWhile_append_dropWhile
      (p := fun d => decide (d.priority < c.priority)) (l := l))
  rw [List.length_append] at this
  omega

theorem insort_all {P : Card → Prop} {l : List Card} {c : Card}
    (hl : ∀ x ∈ l, P x) (hc : P c) :
    ∀ x ∈ insortByPriority l c, P x := by
  intro x hx
  unfold insortByPriority at hx
  rcases List.mem_append.mp hx with h1 | h1
  · exact hl x (List.Sublist.mem h1 (List.takeWhile_sublist _))
  · rcases List.mem_cons.mp h1 with h2 | h2
    · rw [h2]; exact hc
    · exact hl x (List.Sublist.mem h2 (List.dropWhile_sublist _))

theorem fold_insort_all {P : Card → Prop} (cs : List Card) :
    ∀ (init : List Card), (∀ x ∈ init, P x) → (∀ c ∈ cs, P c) →
      ∀ x ∈ cs.foldl insortByPriority init, P x := by
  induction cs with
  | nil => intro init hi _; simpa using hi
  | cons c rest ih =>
    intro init hi hc
    rw [List.foldl_cons]
    exact ih _ (insort_all hi (hc c (List.mem_cons_self c rest)))
      (fun x hx => hc x (List.mem_cons_of_mem c hx))

theorem fold_insort_length (cs : List Card) :
    ∀ (init : List Card),
      (cs.foldl insortByPriority init).length = init.length + cs.length := by
  induction cs with
  | nil => intro init; simp
  | cons c rest ih =>
    intro init
    rw [List.foldl_cons, ih, insort_length]
    simp only [List.length_cons]
    omega

/-- C5.  Deck capacity is enforced only on common-source cards: after
eviction the deck is at/under capacity or holds no common card;
non-common cards are never evicted (their filtered sequence is
untouched, and an all-non-common deck is left whole even over
capacity); inserting only common cards beyond capacity — singly or in
bulk — leaves exactly `capacity` cards; and each eviction step removes
a common card of minimal priority among the common cards of a sorted
deck. -/
theorem C5_deck_eviction :
    (∀ (cap : Nat) (l : List Card),
      (evictIfNeeded cap l).length ≤ cap ∨
        ∀ c ∈ evictIfNeeded cap l, c.source ≠ "common") ∧
    (∀ (cap : Nat) (l : List Card),
      (evictIfNeeded cap l).filter (fun x => x.source != "common") =
        l.filter (fun x => x.source != "common")) ∧
    (∀ (cap : Nat) (l : List Card),
      (∀ c ∈ l, c.source ≠ "common") → evictIfNeeded cap l = l) ∧
    (∀ (d : WeightedDeque) (cs : List Card),
      d.cards = [] → (∀ c ∈ cs, c.source = "common") →
      d.capacity ≤ cs.length →
      (d.bulkInsert cs).1.cards.length = d.capacity) ∧
    (∀ (d : WeightedDeque) (c : Card), c.source = "common" →
      (∀ x ∈ d.cards, x.source = "common") →
      d.capacity ≤ d.cards.length →
      (d.insert c).cards.length = d.capacity) ∧
    (∀ (l : List Card) (c : Card) (rest : List Card),
      sortedByPriority l → popFirstCommon l = some (c, rest) →
      c.source = "common" ∧
        ∀ x ∈ l, x.source = "common" → c.priority ≤ x.priority) := by
  refine ⟨evict_le_or_noCommon, evict_filter, evict_noCommon_id,
    ?_, ?_, ?_⟩
  · intro d cs hnil hc hlen
    show (evictIfNeeded d.capacity (cs.foldl insortByPriority d.cards)).length
      = d.capacity
    apply evict_allCommon_length
    · exact fold_insort_all cs d.cards
        (by rw [hnil]; intro x hx; simp at hx) hc
    · rw [fold_insort_length, hnil]
      simpa using hlen
  · intro d c hc hall hlen
    show (evictIfNeeded d.capacity (insortByPriority d.cards c)).length
      = d.capacity
    apply evict_allCommon_length
    · exact insort_all hall hc
    · rw [insort_length]
      omega
  · intro l c rest hs hp
    exact ⟨popFirstCommon_common hp, popFirstCommon_min hs hp⟩

/-- Witness for C5: three common cards into a 2-card deck leave
exactly 2; two story cards into a 1-card deck are both kept. -/
theorem C5_deck_eviction_witness :
    ((⟨[], 2, 0⟩ : WeightedDeque).bulkInsert
      [fixtureInfo "a" 1 "common", fixtureInfo "b" 1 "common",
       fixtureInfo "c" 1 "common"]).1.cards.length = 2 ∧
    evictIfNeeded 1 [fixtureInfo "s1" 5 "story", fixtureInfo "s2" 5 "story"] =
      [fixtureInfo "s1" 5 "story", fixtureInfo "s2" 5 "story"] :=
  ⟨C5_deck_eviction.2.2.2.1 ⟨[], 2, 0⟩ _ rfl (by decide) (by decide),
   C5_deck_eviction.2.2.1 1 _ (by decide)⟩

-- ════════════════════════════════════════════════════════════════════
-- Claim C10: deterministic FIFO draw order for equal priorities
-- ════════════════════════════════════════════════════════════════════

/-- Draw repeatedly (at most `n` times), collecting the drawn cards in
order. -/
def drawSeq (d : WeightedDeque) : Nat → List Card
  | 0 => []
  | n + 1 =>
      match d.draw with
      | (none, _) => []
      | (some c, d') => c :: drawSeq d' n

/-- Exhausting the deque by successive draws returns the card list in
reverse (highest priority first). -/
theorem drawSeq_reverse (d : WeightedDeque) :
    drawSeq d d.cards.length = d.cards.reverse := by
  generalize hn : d.cards.length = n
  induction n generalizing d with
  | zero =>
    have : d.cards = [] := List.length_eq_zero.mp hn
    rw [this]
    rfl
  | succ n ih =>
    have hne : d.cards ≠ [] := by
      intro h
      rw [h] at hn
      simp at hn
    have hlast : d.cards.getLast? = some (d.cards.getLast hne) :=
      List.getLast?_eq_getLast d.cards hne
    have hdraw : d.draw =
        (some (d.cards.getLast hne),
         { d with cards := d.cards.dropLast,
                  cards_consumed := d.cards_consumed + 1 }) := by
      unfold WeightedDeque.draw
      rw [hlast]
    show drawSeq d (n + 1) = d.cards.reverse
    have hlen : d.cards.dropLast.length = n := by
      rw [List.length_dropLast]
      omega
    have hrec := ih { d with cards := d.cards.dropLast,
                             cards_consumed := d.cards_consumed + 1 } hlen
    simp only [drawSeq, hdraw]
    rw [hrec]
    show d.cards.getLast hne :: d.cards.dropLast.reverse = d.cards.reverse
    conv_rhs => rw [← List.dropLast_concat_getLast hne]
    rw [List.reverse_append]
    rfl

/-- C10.  The deque's `bisect_left` insertion places a new card before
every existing card of priority ≥ its own while never reordering the
existing cards, and `draw` pops the list tail; hence, for two
equal-priority cards not hit by eviction, the earlier-inserted card is
drawn strictly before the later-inserted one — the draw order is
deterministic in the insertion sequence. -/
theorem C10_equal_priority_fifo :
    (∀ (l : List Card) (c : Card),
      l.takeWhile (fun x => x.priority < c.priority) ++
        l.dropWhile (fun x => x.priority < c.priority) = l ∧
      insortByPriority l c =
        l.takeWhile (fun x => x.priority < c.priority) ++
          c :: l.dropWhile (fun x => x.priority < c.priority)) ∧
    (∀ (l : List Card) (c a : Card), a ∈ l → a.priority = c.priority →
      a ∈ l.dropWhile (fun x => x.priority < c.priority)) ∧
    (∀ d : WeightedDeque, drawSeq d d.cards.length = d.cards.reverse) ∧
    (∀ (d : WeightedDeque) (a b : Card), a ∈ d.cards →
      a.priority = b.priority → d.cards.length + 1 ≤ d.capacity →
      ∃ pre mid post,
        drawSeq (d.insert b) (d.insert b).cards.length =
          pre ++ a :: (mid ++ b :: post)) := by
  have hdrop : ∀ (l : List Card) (c a : Card), a ∈ l →
      a.priority = c.priority →
      a ∈ l.dropWhile (fun x => x.priority < c.priority) := by
    intro l c a ha hpr
    have hsplit := List.takeWhile_append_dropWhile
      (p := fun x => decide (x.priority < c.priority)) (l := l)
    rw [← hsplit] at ha
    rcases List.mem_append.mp ha with h1 | h1
    · exfalso
      have := List.mem_takeWhile_imp h1
      simp only [decide_eq_true_eq] at this
      omega
    · exact h1
  refine ⟨fun l c => ⟨List.takeWhile_append_dropWhile _ _, rfl⟩, hdrop,
    drawSeq_reverse, ?_⟩
  intro d a b ha hpr hcap
  have hins : (d.insert b).cards = insortByPriority d.cards b := by
    show evictIfNeeded d.capacity (insortByPriority d.cards b) = _
    apply evict_id_of_le
    rw [insort_length]
    omega
  have hb := hdrop d.cards b a ha hpr
  obtain ⟨u, v, huv⟩ := List.append_of_mem hb
  refine ⟨v.reverse, u.reverse,
    (d.cards.takeWhile (fun x => x.priority < b.priority)).reverse, ?_⟩
  rw [drawSeq_reverse, hins]
  unfold insortByPriority
  rw [huv]
  simp [List.reverse_append]

/-- Witness for C10: inserting a second common card of equal priority
after `"a"` draws `"a"` first. -/
theorem C10_equal_priority_fifo_witness :
    (∃ pre mid post,
      drawSeq ((⟨[fixtureInfo "a" 1 "common"], 3, 0⟩ : WeightedDeque).insert
          (fixtureInfo "b" 1 "common"))
        (((⟨[fixtureInfo "a" 1 "common"], 3, 0⟩ : WeightedDeque).insert
          (fixtureInfo "b" 1 "common")).cards.length) =
        pre ++ fixtureInfo "a" 1 "common" ::
          (mid ++ fixtureInfo "b" 1 "common" :: post)) ∧
    drawSeq ((⟨[fixtureInfo "a" 1 "common"], 3, 0⟩ : WeightedDeque).insert
        (fixtureInfo "b" 1 "common")) 2 =
      [fixtureInfo "a" 1 "common", fixtureInfo "b" 1 "common"] :=
  ⟨C10_equal_priority_fifo.2.2.2 ⟨[fixtureInfo "a" 1 "common"], 3, 0⟩
     (fixtureInfo "a" 1 "common") (fixtureInfo "b" 1 "common")
     (by simp) rfl (by decide), rfl⟩

-- ════════════════════════════════════════════════════════════════════
-- Claim C6: DAG activation gating
-- ════════════════════════════════════════════════════════════════════

theorem lookupNode_mem {d : MacroDAG} {p : String} {m : PlotNode}
    (h : d.lookupNode p = some m) : (p, m) ∈ d.nodes := by
  unfold MacroDAG.lookupNode at h
  obtain ⟨q, hq1, hq2⟩ := Option.map_eq_some'.mp h
  have hq3 := List.find?_some hq1
  have hq4 := List.mem_of_find?_eq_some hq1
  have hqk : q.1 = p := by simpa using hq3
  rw [← hq2, ← hqk]
  exact hq4

theorem mem_lookupNode {d : MacroDAG}
    (hnd : (d.nodes.map (fun p => p.1)).Nodup) {p : String} {m : PlotNode}
    (h : (p, m) ∈ d.nodes) : d.lookupNode p = some m := by
  cases hf : d.nodes.find? (fun e => e.1 == p) with
  | none =>
    exfalso
    have := List.find?_eq_none.mp hf (p, m) h
    simp at this
  | some q =>
    have hq3 := List.find?_some hf
    have hq4 := List.mem_of_find?_eq_some hf
    have hqk : q.1 = p := by simpa using hq3
    have hqmem : (p, q.2) ∈ d.nodes := by
      rw [← hqk]
      simpa using hq4
    have hq2m : q.2 = m := nodup_key_eq hnd hqmem h
    unfold MacroDAG.lookupNode
    rw [hf]
    simp [hq2m]

/-- C6.  A not-yet-fired node with at least one predecessor is never
activatable while some predecessor present in the node set is unfired;
once every present predecessor is fired and its condition evaluates
true it is activatable; and a condition whose evaluation fails is
treated as false (never raised). -/
theorem C6_dag_activation (d : MacroDAG) (s : GlobalBlackboard)
    (nid : String) (n : PlotNode)
    (hwf : ∀ e ∈ d.nodes, e.1 = e.2.id)
    (hnd : (d.nodes.map (fun p => p.1)).Nodup)
    (hmem : (nid, n) ∈ d.nodes) :
    ((n.is_fired = false ∧ d.preds nid ≠ [] ∧
      ∃ p m, p ∈ d.preds nid ∧ (p, m) ∈ d.nodes ∧ m.is_fired = false) →
      n ∉ d.get_activatable_nodes s) ∧
    ((n.is_fired = false →
      (∀ p m, p ∈ d.preds nid → (p, m) ∈ d.nodes → m.is_fired = true) →
      MacroDAG.check_condition n s = true →
      n ∈ d.get_activatable_nodes s)) ∧
    (∀ (m : PlotNode) (st : GlobalBlackboard),
      m.condition (mkCtx st) = none →
      MacroDAG.check_condition m st = false) := by
  refine ⟨?_, ?_, ?_⟩
  · rintro ⟨hf, hne, p, m, hp, hpm, hmf⟩ hin
    unfold MacroDAG.get_activatable_nodes at hin
    obtain ⟨e, hef, he2⟩ := List.mem_map.mp hin
    obtain ⟨hen, hepred⟩ := List.mem_filter.mp hef
    obtain ⟨e1, e2⟩ := e
    simp only at he2
    subst he2
    have heid : e1 = nid := by
      have h1 := hwf (e1, e2) hen
      have h2 := hwf (nid, e2) hmem
      simp only at h1 h2
      rw [h1, h2]
    subst heid
    simp only [Bool.and_eq_true, Bool.not_eq_true'] at hepred
    obtain ⟨⟨hf2, hgate⟩, hcc⟩ := hepred
    have hie : (d.preds e1).isEmpty = false := by
      rcases hq : d.preds e1 with _ | _
      · exact absurd hq hne
      · rfl
    rw [hie] at hgate
    simp only [Bool.not_false, Bool.true_and, Bool.not_eq_false,
      Bool.not_eq_false'] at hgate
    have := List.all_eq_true.mp hgate p hp
    rw [mem_lookupNode hnd hpm] at this
    simp only at this
    rw [this] at hmf
    exact absurd hmf (by simp)
  · intro hf hpreds hcond
    unfold MacroDAG.get_activatable_nodes
    apply List.mem_map.mpr
    refine ⟨(nid, n), List.mem_filter.mpr ⟨hmem, ?_⟩, rfl⟩
    have hall : (d.preds nid).all (fun p =>
        match d.lookupNode p with
        | some m => m.is_fired
        | none => true) = true := by
      apply List.all_eq_true.mpr
      intro p hp
      cases hlk : d.lookupNode p with
      | none => rfl
      | some m =>
        simp only
        exact hpreds p m hp (lookupNode_mem hlk)
    simp only [hall, hf, hcond]
    simp
  · intro m st h
    unfold MacroDAG.check_condition
    rw [h]
    rfl

/-- A condition expression that evaluates to `True`. -/
def condTrue : Cond := fun _ => some true

def nodeParent : PlotNode :=
  { id := "a", plot_description := "parent", condition := condTrue,
    calls := [], is_ending := false, ending_text := none,
    is_fired := false }

def nodeChild : PlotNode :=
  { id := "b", plot_description := "child", condition := condTrue,
    calls := [], is_ending := false, ending_text := none,
    is_fired := false }

def dagLocked : MacroDAG :=
  ⟨[("a", nodeParent), ("b", nodeChild)], [("a", "b")]⟩

def dagUnlocked : MacroDAG :=
  ⟨[("a", { nodeParent with is_fired := true }), ("b", nodeChild)],
   [("a", "b")]⟩

/-- Witness for C6: the child is not activatable while its parent is
unfired, and becomes activatable (condition true) once the parent has
fired. -/
theorem C6_dag_activation_witness :
    nodeChild ∉ dagLocked.get_activatable_nodes fixtureGB ∧
    nodeChild ∈ dagUnlocked.get_activatable_nodes fixtureGB :=
  ⟨(C6_dag_activation dagLocked fixtureGB "b" nodeChild
      (by intro e he; simp [dagLocked] at he; rcases he with h | h <;>
        simp [h, nodeParent, nodeChild])
      (by simp [dagLocked]) (by simp [dagLocked])).1
    ⟨rfl, by simp [dagLocked, MacroDAG.preds],
     "a", nodeParent, by simp [dagLocked, MacroDAG.preds],
     by simp [dagLocked], rfl⟩,
   (C6_dag_activation dagUnlocked fixtureGB "b" nodeChild
      (by intro e he; simp [dagUnlocked] at he; rcases he with h | h <;>
        simp [h, nodeParent, nodeChild])
      (by simp [dagUnlocked]) (by simp [dagUnlocked])).2.1 rfl
    (by
      intro p m hp hm
      simp [dagUnlocked, MacroDAG.preds] at hp
      subst hp
      simp [dagUnlocked, nodeParent, nodeChild] at hm
      rw [hm]) rfl⟩

-- ════════════════════════════════════════════════════════════════════
-- Claim C7: calendar advancement in GameEngine.resolve_card
-- ════════════════════════════════════════════════════════════════════

/-- The calendar fields of a blackboard. -/
def calOf (s : GlobalBlackboard) : Int × Int × Int × Int :=
  (s.day, s.turn, s.season_index, s.year)

def callIsAdvanceTime : FCall → Bool
  | .advance_time _ => true
  | _ => false

/-- The function calls of a card's chosen side (empty for an
InfoCard, which executes none). -/
def chosenCalls : Card → String → List FCall
  | .choice _ l r _ _, dir => (if dir == "left" then l else r).calls
  | .info _ _, _ => []

/-- The tree cards a resolution yields: the chosen side's tree cards
for a ChoiceCard, `next_cards` for an InfoCard. -/
def chosenTree : Card → String → List Card
  | .choice _ _ _ tl tr, dir => if dir == "left" then tl else tr
  | .info _ nc, _ => nc

theorem executor_tree (es : ExecState) (card : Card) (dir : String) :
    (executorResolveCard es card dir).2.tree_cards = chosenTree card dir := by
  cases card with
  | info b nc => rfl
  | choice b l r tl tr => rfl

theorem advance_day_untouched (s : GlobalBlackboard) :
    (s.advance_day).1.seasons = s.seasons ∧
    (s.advance_day).1.pending_plot_node = s.pending_plot_node := by
  simp only [GlobalBlackboard.advance_day]
  by_cases h : s.day + 1 > DAYS_PER_SEASON <;> simp [h]

theorem advanceDays_untouched : ∀ (n : Nat) (s : GlobalBlackboard),
    (advanceDays s n).seasons = s.seasons ∧
    (advanceDays s n).pending_plot_node = s.pending_plot_node := by
  intro n
  induction n with
  | zero => intro s; exact ⟨rfl, rfl⟩
  | succ n ih =>
    intro s
    show (advanceDays (s.advance_day).1 n).seasons = s.seasons ∧ _
    have h1 := ih (s.advance_day).1
    have h2 := advance_day_untouched s
    exact ⟨h1.1.trans h2.1, h1.2.trans h2.2⟩

theorem execCall_untouched (es : ExecState) (c : FCall) :
    (execCall es c).1.state.seasons = es.state.seasons ∧
    (execCall es c).1.state.pending_plot_node =
      es.state.pending_plot_node := by
  cases c with
  | update_stat p => exact ⟨rfl, rfl⟩
  | add_tag t =>
    simp only [execCall]
    by_cases h : t == "" <;> simp [h]
  | remove_tag t => exact ⟨rfl, rfl⟩
  | add_event p =>
    simp only [execCall]
    cases buildEvent p <;> simp
  | remove_event i => exact ⟨rfl, rfl⟩
  | advance_event i => exact ⟨rfl, rfl⟩
  | update_event_progress i d4 => exact ⟨rfl, rfl⟩
  | change_event_deadline i dl => exact ⟨rfl, rfl⟩
  | enable_npc i => exact ⟨rfl, rfl⟩
  | disable_npc i => exact ⟨rfl, rfl⟩
  | advance_time days =>
    simp only [execCall]
    by_cases h : days > 0
    · simp only [if_pos h]
      exact advanceDays_untouched days.toNat es.state
    · simp [h]
  | unknown nm => exact ⟨rfl, rfl⟩

theorem execCall_cal (es : ExecState) (c : FCall)
    (h : callIsAdvanceTime c = false) :
    calOf (execCall es c).1.state = calOf es.state := by
  cases c with
  | update_stat p => rfl
  | add_tag t =>
    simp only [execCall]
    by_cases ht : t == "" <;> simp [ht, calOf]
  | remove_tag t => rfl
  | add_event p =>
    simp only [execCall]
    cases buildEvent p <;> simp [calOf]
  | remove_event i => rfl
  | advance_event i => rfl
  | update_event_progress i d4 => rfl
  | change_event_deadline i dl => rfl
  | enable_npc i => rfl
  | disable_npc i => rfl
  | advance_time days => simp [callIsAdvanceTime] at h
  | unknown nm => rfl

theorem execFold_untouched : ∀ (calls : List FCall)
    (acc : ExecState × List (String × Int)),
    ((calls.foldl execStep acc).1.state.seasons = acc.1.state.seasons) ∧
    ((calls.foldl execStep acc).1.state.pending_plot_node =
      acc.1.state.pending_plot_node) := by
  intro calls
  induction calls with
  | nil => intro acc; exact ⟨rfl, rfl⟩
  | cons c rest ih =>
    intro acc
    rw [List.foldl_cons]
    have h1 := ih (execStep acc c)
    have h2 := execCall_untouched acc.1 c
    exact ⟨h1.1.trans h2.1, h1.2.trans h2.2⟩

theorem execFold_cal : ∀ (calls : List FCall)
    (acc : ExecState × List (String × Int)),
    (∀ c ∈ calls, callIsAdvanceTime c = false) →
    calOf (calls.foldl execStep acc).1.state = calOf acc.1.state := by
  intro calls
  induction calls with
  | nil => intro acc _; rfl
  | cons c rest ih =>
    intro acc h
    rw [List.foldl_cons]
    have h1 := ih (execStep acc c)
      (fun x hx => h x (List.mem_cons_of_mem c hx))
    have h2 := execCall_cal acc.1 c (h c (List.mem_cons_self c rest))
    exact h1.trans h2

theorem executor_untouched (es : ExecState) (card : Card) (dir : String) :
    (executorResolveCard es card dir).1.state.seasons = es.state.seasons ∧
    (executorResolveCard es card dir).1.state.pending_plot_node =
      es.state.pending_plot_node := by
  cases card with
  | info b nc => exact ⟨rfl, rfl⟩
  | choice b l r tl tr =>
    show ((execute es (if dir == "left" then l else r).calls).1.state.seasons
        = es.state.seasons) ∧ _
    exact execFold_untouched _ _

theorem executor_cal (es : ExecState) (card : Card) (dir : String)
    (h : ∀ c ∈ chosenCalls card dir, callIsAdvanceTime c = false) :
    calOf (executorResolveCard es card dir).1.state = calOf es.state := by
  cases card with
  | info b nc => rfl
  | choice b l r tl tr =>
    show calOf (execute es (if dir == "left" then l else r).calls).1.state
        = calOf es.state
    exact execFold_cal _ _ h

theorem current_season_mem {s : GlobalBlackboard} {se : Season}
    (h : s.current_season = some se) : se ∈ s.seasons := by
  unfold GlobalBlackboard.current_season at h
  by_cases hc : (!s.seasons.isEmpty && 0 ≤ s.season_index &&
      s.season_index < (s.seasons.length : Int)) = true
  · rw [if_pos hc] at h
    exact List.get?_mem h
  · rw [if_neg hc] at h
    exact absurd h (by simp)

theorem checkPlot_id (e : Engine) (h : e.dag.nodes = []) :
    e.checkPlotConditions = e := by
  unfold Engine.checkPlotConditions MacroDAG.get_activatable_nodes
  rw [h]
  rfl

theorem firePendingPlot_id (e : Engine)
    (h : e.state.pending_plot_node = none) : e.firePendingPlot = e := by
  unfold Engine.firePendingPlot
  rw [h]

theorem checkEvents_state (e : Engine) : (e.checkEvents).state = e.state :=
  rfl

theorem onWeekEnd_state (e : Engine)
    (h1 : ∀ se ∈ e.state.seasons, se.on_week_end_calls = [])
    (hp : e.state.pending_plot_node = none) :
    (e.onWeekEnd).state = e.state := by
  cases hcs : e.state.current_season with
  | none =>
    simp only [Engine.onWeekEnd, hcs]
    rw [firePendingPlot_id e hp]
    rfl
  | some se =>
    have hse := current_season_mem hcs
    simp only [Engine.onWeekEnd, hcs, h1 se hse, List.isEmpty_nil,
      Bool.not_true, Bool.false_eq_true, if_false]
    rw [firePendingPlot_id e hp]
    rfl

theorem onSeasonEnd_state (e : Engine)
    (h1 : ∀ se ∈ e.state.seasons, se.on_season_end_calls = []) :
    (e.onSeasonEnd).state = e.state := by
  by_cases hemp : e.state.seasons.isEmpty = true
  · simp only [Engine.onSeasonEnd, hemp, if_true]
  · have hemp2 : e.state.seasons.isEmpty = false := by
      simpa using hemp
    cases hg : e.state.seasons.get?
        ((e.state.season_index - 1) % (e.state.seasons.length : Int)).toNat with
    | none =>
      simp only [Engine.onSeasonEnd, hemp2, Bool.false_eq_true, if_false,
        hg]
    | some se =>
      have hse : se ∈ e.state.seasons := List.get?_mem hg
      simp only [Engine.onSeasonEnd, hemp2, Bool.false_eq_true, if_false,
        hg, h1 se hse, List.isEmpty_nil, Bool.not_true]

theorem treeFold_state : ∀ (cards : List Card) (e : Engine),
    (cards.foldl (fun acc tc =>
      { acc with deque := acc.deque.insert (tc.retag PRIORITY_TREE "tree") })
      e).state = e.state := by
  intro cards
  induction cards with
  | nil => intro e; rfl
  | cons c rest ih =>
    intro e
    rw [List.foldl_cons]
    exact ih _

/-- The state after the boundary-hook phase of `resolve_card`: with an
empty DAG, no pending plot node and hook-free seasons, neither the
plot check, the week-end path nor the season-end path touches the
blackboard. -/
theorem postAdvance_state (f : Engine)
    (h1 : ∀ se ∈ f.state.seasons,
      se.on_week_end_calls = [] ∧ se.on_season_end_calls = [])
    (hd : f.dag.nodes = [])
    (hp : f.state.pending_plot_node = none)
    (wE sE : Bool) :
    (if sE = true then
        Engine.onSeasonEnd (if wE = true then
          Engine.onWeekEnd (Engine.checkPlotConditions f)
        else Engine.checkPlotConditions f)
      else (if wE = true then
        Engine.onWeekEnd (Engine.checkPlotConditions f)
      else Engine.checkPlotConditions f)).state = f.state := by
  rw [checkPlot_id f hd]
  have hW : (if wE = true then f.onWeekEnd else f).state = f.state := by
    cases wE with
    | false => simp
    | true =>
      simp only [if_pos]
      exact onWeekEnd_state f (fun se hse => (h1 se hse).1) hp
  cases sE with
  | false =>
    simp only [Bool.false_eq_true, if_false]
    exact hW
  | true =>
    simp only [if_pos]
    rw [onSeasonEnd_state]
    · exact hW
    · intro se2 hse2
      rw [hW] at hse2
      exact (h1 se2 hse2).2

theorem advance_day_calCongr {s t : GlobalBlackboard}
    (h : calOf s = calOf t) :
    calOf (s.advance_day).1 = calOf (t.advance_day).1 := by
  simp only [calOf, Prod.mk.injEq] at h
  obtain ⟨h1, h2, h3, h4⟩ := h
  simp only [calOf, Prod.mk.injEq]
  refine ⟨?_, ?_, ?_, ?_⟩
  · rw [advance_day_day, advance_day_day, h1]
  · rw [advance_day_turn, advance_day_turn, h2]
  · rw [advance_day_season_index, advance_day_season_index, h1, h3]
  · rw [advance_day_year, advance_day_year, h1, h3, h4]

/-- With hook-free seasons, an empty DAG and no pending plot node,
resolving a non-info card that yields no tree cards leaves the state
at exactly one `advance_day` application over the executor's output
state. -/
theorem resolveCard_state_eq (e : Engine) (card : Card) (dir : String)
    (h1 : ∀ se ∈ e.state.seasons,
      se.on_week_end_calls = [] ∧ se.on_season_end_calls = [])
    (h2 : e.dag.nodes = []) (h3 : e.state.pending_plot_node = none)
    (hinfo : card.isInfo = false) (htree : chosenTree card dir = []) :
    (e.resolveCard card dir).1.state =
      (((executorResolveCard ⟨e.state, e.events⟩ card dir).1.state).advance_day).1 := by
  have htc : (executorResolveCard ⟨e.state, e.events⟩ card dir).2.tree_cards
      = [] := by
    rw [executor_tree]
    exact htree
  simp only [Engine.resolveCard, htc, List.isEmpty_nil, Bool.not_true,
    Bool.false_eq_true, if_false, hinfo]
  refine postAdvance_state _ ?_ ?_ ?_ _ _
  · intro se hse
    refine h1 se ?_
    have hA : (((executorResolveCard ⟨e.state, e.events⟩ card dir).1.state).advance_day).1.seasons
        = e.state.seasons := by
      rw [(advance_day_untouched _).1]
      exact (executor_untouched _ _ _).1
    rw [← hA]
    exact hse
  · exact h2
  · show (((executorResolveCard ⟨e.state, e.events⟩ card dir).1.state).advance_day).1.pending_plot_node
      = none
    rw [(advance_day_untouched _).2, (executor_untouched _ _ _).2]
    exact h3

/-- Resolving an InfoCard never touches the blackboard at all. -/
theorem resolveInfo_state (e2 : Engine) (b : CardBase) (nc : List Card)
    (dir : String) :
    (e2.resolveCard (.info b nc) dir).1.state = e2.state := by
  by_cases hn : nc = []
  · subst hn
    rfl
  · have hne : (!(executorResolveCard ⟨e2.state, e2.events⟩
        (Card.info b nc) dir).2.tree_cards.isEmpty) = true := by
      rw [executor_tree]
      show (!nc.isEmpty) = true
      cases nc with
      | nil => exact absurd rfl hn
      | cons x xs => rfl
    simp only [Engine.resolveCard, hne, if_true]
    exact treeFold_state _ _

/-- The end-to-end scenario card: the left choice applies
`update_stat` with treasury +10. -/
def demoChoiceCard : Card := .choice
  { id := "c1", title := "A Request", description := "",
    character := "narrator", source := "common", priority := 1 }
  (.mk "Agree" [.update_stat (.mapping [("treasury", some 10)])])
  (.mk "Refuse" []) [] []

/-- A choice card whose left side carries a tree follow-up card. -/
def treeChoiceCard : Card := .choice
  { id := "tc", title := "", description := "", character := "narrator",
    source := "common", priority := 1 }
  (.mk "L" []) (.mk "R" []) [fixtureInfo "tf" 4 "tree"] []

/-- C7 (counterexample).  Resolving a ChoiceCard whose chosen side
yields tree cards does not advance the calendar: from day 1 / turn 0
the day stays 1 and the turn stays 0, although the claim demands one
day for every non-info card. -/
theorem C7_resolve_card_day_counterexample :
    Card.isInfo treeChoiceCard = false ∧
    fixtureEngine.state.day = 1 ∧
    fixtureEngine.state.turn = 0 ∧
    (fixtureEngine.resolveCard treeChoiceCard "left").1.state.day = 1 ∧
    (fixtureEngine.resolveCard treeChoiceCard "left").1.state.turn = 0 := by
  exact ⟨rfl, rfl, rfl, rfl, rfl⟩

/-- C7 (amended).  Under hook-free seasons, an empty plot DAG and no
pending plot node: resolving a Choice card whose chosen side yields no
tree cards applies `advance_day` exactly once on top of the executor's
output (and, when its calls do not include `advance_time`, the
calendar advances by exactly one day from the original state);
resolving an InfoCard never changes the blackboard; the
ActionExecutor's own `resolve_card` leaves the calendar untouched
whenever the chosen calls contain no `advance_time`; and in the
concrete scenario (all stats 50, left choice treasury +10) the
resulting treasury is 60, the day advances 1 → 2 and the turn 0 → 1. -/
theorem C7_resolve_card_day_amended (e : Engine)
    (h1 : ∀ se ∈ e.state.seasons,
      se.on_week_end_calls = [] ∧ se.on_season_end_calls = [])
    (h2 : e.dag.nodes = []) (h3 : e.state.pending_plot_node = none) :
    (∀ (card : Card) (dir : String), card.isInfo = false →
      chosenTree card dir = [] →
      (e.resolveCard card dir).1.state =
        (((executorResolveCard ⟨e.state, e.events⟩ card dir).1.state).advance_day).1) ∧
    (∀ (card : Card) (dir : String), card.isInfo = false →
      chosenTree card dir = [] →
      (∀ c ∈ chosenCalls card dir, callIsAdvanceTime c = false) →
      calOf (e.resolveCard card dir).1.state =
        calOf ((e.state.advance_day).1)) ∧
    (∀ (e2 : Engine) (b : CardBase) (nc : List Card) (dir : String),
      (e2.resolveCard (.info b nc) dir).1.state = e2.state) ∧
    (∀ (es : ExecState) (card : Card) (dir : String),
      (∀ c ∈ chosenCalls card dir, callIsAdvanceTime c = false) →
      calOf (executorResolveCard es card dir).1.state = calOf es.state) ∧
    (lookupV (fixtureEngine.resolveCard demoChoiceCard "left").1.state.stats
        "treasury" = some 60 ∧
      (fixtureEngine.resolveCard demoChoiceCard "left").1.state.day = 2 ∧
      (fixtureEngine.resolveCard demoChoiceCard "left").1.state.turn = 1) := by
  refine ⟨fun card dir hinfo htree =>
      resolveCard_state_eq e card dir h1 h2 h3 hinfo htree,
    ?_, resolveInfo_state, executor_cal, by decide, by decide, by decide⟩
  intro card dir hinfo htree hcalls
  rw [resolveCard_state_eq e card dir h1 h2 h3 hinfo htree]
  exact advance_day_calCongr (executor_cal ⟨e.state, e.events⟩ card dir hcalls)

/-- Witness for C7: the amended day rule applied to the fixture engine
and the scenario card. -/
theorem C7_resolve_card_day_amended_witness :
    (∀ se ∈ fixtureEngine.state.seasons,
      se.on_week_end_calls = [] ∧ se.on_season_end_calls = []) ∧
    calOf (fixtureEngine.resolveCard demoChoiceCard "left").1.state =
      calOf ((fixtureEngine.state.advance_day).1) := by
  have hs : ∀ se ∈ fixtureEngine.state.seasons,
      se.on_week_end_calls = [] ∧ se.on_season_end_calls = [] := by
    intro se hse
    simp only [fixtureEngine, fixtureGB, fixtureSeasons, List.mem_cons,
      List.not_mem_nil, or_false] at hse
    rcases hse with h | h | h | h <;> subst h <;> exact ⟨rfl, rfl⟩
  refine ⟨hs, ?_⟩
  refine (C7_resolve_card_day_amended fixtureEngine hs rfl rfl).2.1
    demoChoiceCard "left" rfl rfl ?_
  intro c hc
  simp only [chosenCalls, demoChoiceCard, beq_self_eq_true, if_true,
    Choice.calls, List.mem_cons, List.not_mem_nil, or_false] at hc
  subst hc
  rfl
